import Mathlib

/-!
Verification development for the `modules_vae` training script of the
cancer-survival-ml repository.

The two source files under scrutiny are `src/modules_vae/fit.py` (the
train/validation loop `fit`, with its nested `train_step` and `valid_step`)
and `src/modules_vae/main.py` (argument parsing and run orchestration).

Modelling conventions:
* Scalar tensor values (losses, metrics) are modelled by `FVal`: a rational
  number or NaN.  The source's `x.isnan().any().item()` checks become
  `FVal.isNan`.
* External collaborators that the source only calls (the model's `forward`,
  `KLDivergence`, `CoxPHLoss`, `torch.nn.MSELoss`, `ConcordanceIndex`,
  `torch.cat`, `Tensor.flatten`, autograd and the Adam optimizer update)
  are abstracted into a `Framework` structure; the development proves
  properties of the loop for every instantiation of that structure.
* Autograd/optimizer state: `loss.backward()` adds the batch's gradient
  contribution `gradOf` to the stored gradient (PyTorch accumulates
  gradients), `optimizer.zero_grad()` resets the stored gradient to
  `gzero`, and `optimizer.step()` applies `stepUpd` to the parameters and
  the optimizer's internal state using the currently stored gradient.
* A Python `assert` failure (`AssertionError`) is modelled by
  `Except.error ()`, which aborts the run before any later effect.
* Side effects are instrumented as a trace of events `Ev` (forward passes
  with their grad mode, backward calls with the loss backpropagated,
  optimizer steps with the gradient used, file writes, ...).
-/

namespace CancerVAE

/-- A scalar floating-point value: a numeric value, or NaN.  The numeric
part is modelled by an integer — the development only relies on addition
and on NaN propagation, never on division or rounding. -/
inductive FVal where
  | num (q : ℤ)
  | nan
deriving DecidableEq, Repr

/-- Python float addition on `FVal`; NaN propagates. -/
def FVal.add : FVal → FVal → FVal
  | .num a, .num b => .num (a + b)
  | _, _ => .nan

/-- The source's `x.isnan().any().item()` on a scalar. -/
def FVal.isNan : FVal → Bool
  | .nan => true
  | .num _ => false

/-- Python's `sum` over a list of scalars (starts from the int `0`). -/
def fsum (l : List FVal) : FVal := l.foldl FVal.add (FVal.num 0)

/-- One batch produced by a data loader: `feat t` models `data['X_' + t]`,
and the survival fields model `data['event_indicator']` and
`data['event_time']` (`fit.py` lines 50-51, 61, 85-86). -/
structure Batch (T : Type) where
  feat : String → T
  event_indicator : T
  event_time : T

/-- The external collaborators of `fit.py`, abstracted.  `P` is the model
parameter space, `T` the tensor type, `G` the gradient space, `O` the Adam
optimizer's internal state. -/
structure Framework (P T G O : Type) where
  /-- `model.input_types_vae` -/
  input_types_vae : List String
  /-- `model.input_types_subtask` -/
  input_types_subtask : List String
  /-- `model.forward((inputs_vae, inputs_task))` at the current train/eval
  mode and parameters; returns `(outputs, mu, logvar, riskpred)`. -/
  forward : Bool → P → List T × List T → List T × T × T × T
  /-- `Tensor.flatten` -/
  flatten : T → T
  /-- `torch.cat` on a non-empty list of tensors; the `RuntimeError` that
  `torch.cat` raises on an empty list is modelled by `torchCat`, which
  guards this field and is what the embedding of `valid_step` calls -/
  cat : List T → T
  /-- `kl_loss_func = KLDivergence()` -/
  kl_loss_func : T → T → FVal
  /-- one `torch.nn.MSELoss(reduction='mean')` instance -/
  mse_loss : T → T → FVal
  /-- `survival_loss_func = CoxPHLoss()` -/
  survival_loss_func : T → T → T → FVal
  /-- `ConcordanceIndex(event_indicator, event_time, estimate)` -/
  ConcordanceIndex : T → T → T → FVal
  /-- the gradient of the batch's joint loss with respect to the model
  parameters, as computed by `batch_loss.backward()` -/
  gradOf : Bool → P → Batch T → G
  /-- the zero gradient installed by `optimizer.zero_grad()` -/
  gzero : G
  /-- gradient accumulation performed by `backward` -/
  gadd : G → G → G
  /-- `optimizer.step()`: the Adam update of parameters and moments from
  the currently stored gradient, at learning rate `lr` -/
  stepUpd : ℚ → P → G → O → P × O

/-- Mutable state threaded through the loop: model parameters, the
gradient currently stored on them, the Adam optimizer's internal state,
and the train/eval mode flag set by `model.train()` / `model.eval()`. -/
structure TState (P G O : Type) where
  params : P
  grad : G
  opt : O
  mode : Bool

/-- Instrumentation events emitted by the embedded loop. -/
inductive Ev (G : Type) where
  | zeroGrad
  | fwd (gradEnabled : Bool)
  | backward (loss : FVal) (g : G)
  | optStep (g : G)
  | modelTrain
  | modelEval
  | cindexCall
  | phaseTrain (epoch : Nat)
  | phaseValid (epoch : Nat)
  | writeFile (path : String)
deriving DecidableEq, Repr

/-- A value stored in the per-epoch results dictionary: a scalar loss or a
per-input-type table (`results['history'][epoch][...]`, lines 71-75 and
112-117). -/
inductive LogVal where
  | scalar (v : FVal)
  | table (kvs : List (String × FVal))
deriving DecidableEq, Repr

/-- A Python dict written by the loop, as an association list in insertion
order. -/
abbrev AssocLog := List (String × LogVal)

variable {P T G O : Type}

/-- `inputs_vae = [data[f'X_{input_type}'] for input_type in model.input_types_vae]`
(line 50 / line 88). -/
def inputsVae (fw : Framework P T G O) (b : Batch T) : List T :=
  fw.input_types_vae.map b.feat

/-- `inputs_task = [data[f'X_{input_type}'] for input_type in model.input_types_subtask]`
(line 51 / line 89). -/
def inputsTask (fw : Framework P T G O) (b : Batch T) : List T :=
  fw.input_types_subtask.map b.feat

/-- `outputs, mu, logvar, riskpred = model.forward((inputs_vae, inputs_task))`
(line 52 / line 90). -/
def forwardAt (fw : Framework P T G O) (mode : Bool) (p : P) (b : Batch T) :
    List T × T × T × T :=
  fw.forward mode p (inputsVae fw b, inputsTask fw b)

/-- `batch_kl_loss = kl_loss_func(mu, logvar)` (line 54 / line 93). -/
def batchKL (fw : Framework P T G O) (mode : Bool) (p : P) (b : Batch T) : FVal :=
  fw.kl_loss_func (forwardAt fw mode p b).2.1 (forwardAt fw mode p b).2.2.1

/-- `reconstruction_loss_funcs = [torch.nn.MSELoss(reduction='mean') for datatype in model.input_types_vae]`
(line 37). -/
def reconstruction_loss_funcs (fw : Framework P T G O) : List (T → T → FVal) :=
  fw.input_types_vae.map (fun _ => fw.mse_loss)

/-- `batch_reconstruction_losses = [f(output, input_vae) for f, output, input_vae in zip(...)]`
(lines 56-58 / 95-97); Python's `zip` truncates to the shortest list, as
does `List.zipWith`. -/
def batchRecons (fw : Framework P T G O) (mode : Bool) (p : P) (b : Batch T) :
    List FVal :=
  List.zipWith (fun f pr => f pr.1 pr.2) (reconstruction_loss_funcs fw)
    ((forwardAt fw mode p b).1.zip (inputsVae fw b))

/-- `riskpred.flatten()` (line 61 / lines 91, 100). -/
def riskFlat (fw : Framework P T G O) (mode : Bool) (p : P) (b : Batch T) : T :=
  fw.flatten (forwardAt fw mode p b).2.2.2

/-- `batch_survival_loss = survival_loss_func(data['event_indicator'], data['event_time'], riskpred.flatten())`
(line 61 / line 100). -/
def batchSurv (fw : Framework P T G O) (mode : Bool) (p : P) (b : Batch T) : FVal :=
  fw.survival_loss_func b.event_indicator b.event_time (riskFlat fw mode p b)

/-- `batch_loss = batch_kl_loss + batch_survival_loss + sum(batch_reconstruction_losses)`
(line 63), with Python's left-associated `+`. -/
def batchLoss (fw : Framework P T G O) (mode : Bool) (p : P) (b : Batch T) : FVal :=
  ((batchKL fw mode p b).add (batchSurv fw mode p b)).add
    (fsum (batchRecons fw mode p b))

/-- The per-batch loss values as recorded into the running totals. -/
structure LossOut where
  kl : FVal
  recons : List FVal
  surv : FVal
deriving DecidableEq, Repr

/-- Result of one training-loop iteration: its loss values, the loss that
was backpropagated, and the stored gradient used by its `optimizer.step()`. -/
structure TrainOut (G : Type) where
  losses : LossOut
  lossBp : FVal
  gradStep : G
deriving DecidableEq, Repr

/-- Result of one validation-loop iteration: its loss values and the
tensors appended to `event_indicator`, `event_time`, `estimate`
(lines 85-86, 91). -/
structure ValidOut (T : Type) where
  losses : LossOut
  ei : T
  et : T
  est : T

/-- The four `assert` conditions checked on every batch, in both training
and validation: `len(inputs_vae)==len(outputs)` (lines 53 / 92) and the
three `not ... .isnan().any().item()` checks (lines 55, 59-60, 62 /
94, 98-99, 101).  All four raise the same bare `AssertionError`, so the
four asserts are modelled as one combined guard. -/
def assertsOk (fw : Framework P T G O) (mode : Bool) (p : P) (b : Batch T) : Bool :=
  ((forwardAt fw mode p b).1.length == (inputsVae fw b).length)
    && !(batchKL fw mode p b).isNan
    && !(batchRecons fw mode p b).any FVal.isNan
    && !(batchSurv fw mode p b).isNan

/-- The values a successful training-loop iteration at state `st` produces
for its batch: the three loss terms, the joint loss that is
backpropagated, and the accumulated gradient its `optimizer.step()` uses. -/
def mkTrainOut (fw : Framework P T G O) (st : TState P G O) (b : Batch T) :
    TrainOut G :=
  ⟨⟨batchKL fw st.mode st.params b, batchRecons fw st.mode st.params b,
    batchSurv fw st.mode st.params b⟩,
   batchLoss fw st.mode st.params b,
   fw.gadd st.grad (fw.gradOf st.mode st.params b)⟩

/-- The state after one training-loop iteration: `backward` accumulated
the batch's gradient contribution into the stored gradient (line 64) and
`optimizer.step()` updated the parameters and optimizer state from the
stored gradient (line 65). -/
def trainNext (fw : Framework P T G O) (lr : ℚ) (st : TState P G O) (b : Batch T) :
    TState P G O :=
  let grad' := fw.gadd st.grad (fw.gradOf st.mode st.params b)
  let po := fw.stepUpd lr st.params grad' st.opt
  ⟨po.1, grad', po.2, st.mode⟩

/-- One iteration of the training loop body (`fit.py` lines 50-68):
forward pass, the asserts, the three loss computations, the joint loss
(line 63), `backward` (line 64, accumulating into the stored gradient),
`optimizer.step()` (line 65), and the running-total updates (lines 66-68,
reflected in the returned `TrainOut`). -/
def trainOne (fw : Framework P T G O) (lr : ℚ) (st : TState P G O) (b : Batch T) :
    Except Unit (TState P G O × TrainOut G × List (Ev G)) :=
  if assertsOk fw st.mode st.params b then
    .ok (trainNext fw lr st b, mkTrainOut fw st b,
      [Ev.fwd true,
       Ev.backward (batchLoss fw st.mode st.params b) (fw.gradOf st.mode st.params b),
       Ev.optStep (fw.gadd st.grad (fw.gradOf st.mode st.params b))])
  else .error ()

/-- The training loop `for batch_idx, data in enumerate(trainloader)`
(line 49), threading the mutable state and collecting per-batch outputs
and the event trace; an `AssertionError` propagates. -/
def trainBatches (fw : Framework P T G O) (lr : ℚ) :
    TState P G O → List (Batch T) →
    Except Unit (TState P G O × List (TrainOut G) × List (Ev G))
  | st, [] => .ok (st, [], [])
  | st, b :: bs =>
    match trainOne fw lr st b with
    | .error e => .error e
    | .ok (st1, out, tr1) =>
      match trainBatches fw lr st1 bs with
      | .error e => .error e
      | .ok (st2, outs, tr2) => .ok (st2, out :: outs, tr1 ++ tr2)

/-- The values a validation-loop iteration at state `st` records for its
batch: the three loss terms and the tensors appended to
`event_indicator`, `event_time`, `estimate` (lines 85-86, 91). -/
def mkValidOut (fw : Framework P T G O) (st : TState P G O) (b : Batch T) :
    ValidOut T :=
  ⟨⟨batchKL fw st.mode st.params b, batchRecons fw st.mode st.params b,
    batchSurv fw st.mode st.params b⟩,
   b.event_indicator, b.event_time, riskFlat fw st.mode st.params b⟩

/-- One iteration of the validation loop body (`fit.py` lines 85-104):
append `event_indicator`, `event_time` and the flattened risk prediction,
run the forward pass under `torch.no_grad()`, and compute the three batch
losses with the same assertions as training.  No gradient, optimizer or
parameter operation occurs: the state is returned unchanged. -/
def validOne (fw : Framework P T G O) (st : TState P G O) (b : Batch T) :
    Except Unit (TState P G O × ValidOut T × List (Ev G)) :=
  if assertsOk fw st.mode st.params b then
    .ok (st, mkValidOut fw st b, [Ev.fwd false])
  else .error ()

/-- The validation loop `for batch_idx, data in enumerate(validloader)`
(line 84). -/
def validBatches (fw : Framework P T G O) :
    TState P G O → List (Batch T) →
    Except Unit (TState P G O × List (ValidOut T) × List (Ev G))
  | st, [] => .ok (st, [], [])
  | st, b :: bs =>
    match validOne fw st b with
    | .error e => .error e
    | .ok (st1, out, tr1) =>
      match validBatches fw st1 bs with
      | .error e => .error e
      | .ok (st2, outs, tr2) => .ok (st2, out :: outs, tr1 ++ tr2)

/-- `train_kl_loss` / `valid_kl_loss` running total: `0` then `+=` per
batch (lines 47, 66 / 82, 102). -/
def accKL (ls : List LossOut) : FVal :=
  ls.foldl (fun a o => a.add o.kl) (FVal.num 0)

/-- `train_survival_loss` / `valid_survival_loss` running total
(lines 48, 68 / 83, 104). -/
def accSurv (ls : List LossOut) : FVal :=
  ls.foldl (fun a o => a.add o.surv) (FVal.num 0)

/-- `train_reconstruction_losses` / `valid_reconstruction_losses` running
totals: `[0 for _ in range(len(model.input_types_vae))]` then a pointwise
`zip` update per batch (lines 46, 67 / 81, 103). -/
def vecSum (n : Nat) (ls : List (List FVal)) : List FVal :=
  ls.foldl (fun a l => List.zipWith FVal.add a l) (List.replicate n (FVal.num 0))

/-- The dict logged as `results['history'][epoch]['train']` (lines 71-75):
keys `kl_loss`, `reconstruction_loss` (a table keyed by
`model.input_types_vae`), `survival_loss`, in insertion order. -/
def trainLog (fw : Framework P T G O) (outs : List (TrainOut G)) : AssocLog :=
  [("kl_loss", LogVal.scalar (accKL (outs.map (fun o => o.losses)))),
   ("reconstruction_loss", LogVal.table (fw.input_types_vae.zip
     (vecSum fw.input_types_vae.length (outs.map (fun o => o.losses.recons))))),
   ("survival_loss", LogVal.scalar (accSurv (outs.map (fun o => o.losses))))]

/-- `train_step(epoch)` (`fit.py` lines 43-76): `model.train()` (line 44),
`optimizer.zero_grad()` (line 45, once per epoch, before the batch loop),
the batch loop, then the epoch's training log. -/
def trainStep (fw : Framework P T G O) (lr : ℚ) (trainloader : List (Batch T))
    (st : TState P G O) :
    Except Unit (TState P G O × AssocLog × List (TrainOut G) × List (Ev G)) :=
  let st1 : TState P G O :=
    { params := st.params, grad := fw.gzero, opt := st.opt, mode := true }
  (trainBatches fw lr st1 trainloader).map (fun r =>
    (r.1, trainLog fw r.2.1, r.2.1, Ev.modelTrain :: Ev.zeroGrad :: r.2.2))

/-- The dict logged as `results['history'][epoch]['valid']`
(lines 112-117): the three loss keys plus `metric`. -/
def validLog (fw : Framework P T G O) (outs : List (ValidOut T)) (metric : FVal) :
    AssocLog :=
  [("kl_loss", LogVal.scalar (accKL (outs.map (fun o => o.losses)))),
   ("reconstruction_loss", LogVal.table (fw.input_types_vae.zip
     (vecSum fw.input_types_vae.length (outs.map (fun o => o.losses.recons))))),
   ("survival_loss", LogVal.scalar (accSurv (outs.map (fun o => o.losses)))),
   ("metric", LogVal.scalar metric)]

/-- `valid_metric = ConcordanceIndex(event_indicator, event_time, estimate)`
after `torch.cat` of the three accumulated lists (lines 106-109): the
concordance index of the concatenated event indicators, event times and
flattened risk predictions of all validation batches, in loader order. -/
def vmetric (fw : Framework P T G O) (outs : List (ValidOut T)) : FVal :=
  fw.ConcordanceIndex
    (fw.cat (outs.map (fun o => o.ei)))
    (fw.cat (outs.map (fun o => o.et)))
    (fw.cat (outs.map (fun o => o.est)))

/-- `torch.cat(tensors)`: raises `RuntimeError: torch.cat(): expected a
non-empty list of Tensors` when the list is empty, and concatenates via
the abstract `Framework.cat` otherwise. -/
def torchCat (fw : Framework P T G O) : List T → Except Unit T
  | [] => .error ()
  | t :: ts => .ok (fw.cat (t :: ts))

/-- `valid_step(epoch)` (`fit.py` lines 78-119): `model.eval()` (line 79),
the batch loop, `torch.cat` of the accumulated `event_indicator`,
`event_time` and `estimate` lists (lines 106-108, each raising on an
empty validation loader, before any logging), one `ConcordanceIndex` call
on the concatenations (line 109), then the epoch's validation log. -/
def validStep (fw : Framework P T G O) (validloader : List (Batch T))
    (st : TState P G O) :
    Except Unit (TState P G O × AssocLog × List (ValidOut T) × FVal × List (Ev G)) :=
  let st0 : TState P G O :=
    { params := st.params, grad := st.grad, opt := st.opt, mode := false }
  match validBatches fw st0 validloader with
  | .error e => .error e
  | .ok (st1, outs, tr) =>
    match torchCat fw (outs.map (fun o => o.ei)) with
    | .error e => .error e
    | .ok ei =>
      match torchCat fw (outs.map (fun o => o.et)) with
      | .error e => .error e
      | .ok et =>
        match torchCat fw (outs.map (fun o => o.est)) with
        | .error e => .error e
        | .ok est =>
          let valid_metric := fw.ConcordanceIndex ei et est
          .ok (st1, validLog fw outs valid_metric, outs, valid_metric,
            (Ev.modelEval :: tr) ++ [Ev.cindexCall])

/-- `results['history'][epoch]`, holding the `'train'` and `'valid'`
sub-dicts (line 123). -/
structure EpochLog where
  train : AssocLog
  valid : AssocLog
deriving DecidableEq, Repr

/-- The epoch loop `for epoch in range(params.epochs)` (lines 121-125),
from epoch index `e` with `n` epochs remaining: create the epoch's history
entry, run `train_step(epoch)` then `valid_step(epoch)`, and continue.
`Ev.phaseTrain e` / `Ev.phaseValid e` mark the two calls in the trace. -/
def runEpochs (fw : Framework P T G O) (lr : ℚ)
    (trainloader validloader : List (Batch T)) :
    TState P G O → Nat → Nat →
    Except Unit (TState P G O × List (Nat × EpochLog) × List (Ev G))
  | st, _, 0 => .ok (st, [], [])
  | st, e, n + 1 =>
    match trainStep fw lr trainloader st with
    | .error err => .error err
    | .ok (st1, trLog, _, tr1) =>
      match validStep fw validloader st1 with
      | .error err => .error err
      | .ok (st2, vlLog, _, _, tr2) =>
        match runEpochs fw lr trainloader validloader st2 (e + 1) n with
        | .error err => .error err
        | .ok (st3, hist, tr3) =>
          .ok (st3, (e, ⟨trLog, vlLog⟩) :: hist,
            (Ev.phaseTrain e :: tr1) ++ (Ev.phaseValid e :: tr2) ++ tr3)

/-- The subset of `params.py`'s `VAEParams` that `main.py` and `fit.py`
read.  Modelled from the spec: `params.py` is not under `src/`; `main.py`
constructs it from the three command-line arguments
(`specify_params_here(args.endpoint, args.shuffle, args.fold)`, line 28)
and reads the remaining hyperparameters from it, and `resultsbase` stands
for the source's `resultsprefix` attribute. -/
structure VAEParams where
  endpoint : String
  shuffle : Int
  fold : Int
  epochs : Nat
  lr : ℚ
  batch_size : Nat
  resultsbase : String
  input_types_all : List String
deriving DecidableEq, Repr

/-- `results` as serialized by `json.dump` (lines 39-41, 128-129):
`results['params']` and `results['history']`. -/
structure Results where
  params : VAEParams
  history : List (Nat × EpochLog)
deriving DecidableEq, Repr

/-- The outcome of a successful `fit` call: the final model/optimizer
state, the results dictionary written to `<resultsprefix>.json`, the
Python return value of `fit`, and the event trace. -/
structure FitOutcome (P G O : Type) where
  state : TState P G O
  results : Results
  ret : Option Results
  trace : List (Ev G)

/-- `fit(model, trainloader, validloader, params)` (`fit.py` lines
10-130): run the epoch loop, serialize `results` to
`f'{params.resultsprefix}.json'` (lines 128-129), and `return` with no
value (line 130), i.e. `ret = none`. -/
def fit (fw : Framework P T G O) (st : TState P G O)
    (trainloader validloader : List (Batch T)) (ps : VAEParams) :
    Except Unit (FitOutcome P G O) :=
  (runEpochs fw ps.lr trainloader validloader st 0 ps.epochs).map (fun r =>
    { state := r.1,
      results := ⟨ps, r.2.1⟩,
      ret := none,
      trace := r.2.2 ++ [Ev.writeFile (ps.resultsbase ++ ".json")] })

/-- The three command-line arguments of `main.py` (lines 22-26). -/
structure Args where
  endpoint : String
  shuffle : Int
  fold : Int
deriving DecidableEq, Repr

/-- `argparse` with `choices=['pfs','os']`, `choices=range(10)`,
`choices=range(5)` (`main.py` lines 23-25): a value outside its choice set
is rejected at parsing, before anything else runs. -/
def parse_args (endpoint : String) (shuffle fold : Int) : Except String Args :=
  if endpoint = "pfs" ∨ endpoint = "os" then
    if 0 ≤ shuffle ∧ shuffle < 10 then
      if 0 ≤ fold ∧ fold < 5 then .ok ⟨endpoint, shuffle, fold⟩
      else .error "argument --fold: invalid choice"
    else .error "argument --shuffle: invalid choice"
  else .error "argument --endpoint: invalid choice"

/-- The hyperparameters that `params.py` fixes independently of the
command line.  Modelled from the spec: `params.py` is not under `src/`
("the actual hyperparameters to modify are in params.py", `main.py`
line 20). -/
structure Hyper where
  epochs : Nat
  lr : ℚ
  batch_size : Nat
  resultsbase : String
  input_types_all : List String
deriving DecidableEq, Repr

/-- `params = specify_params_here(args.endpoint, args.shuffle, args.fold)`
(`main.py` line 28).  Modelled from the spec: `VAEParams` (in the absent
`params.py`) stores the three command-line arguments it is given — this is
how `main.py` later reads them back as `params.endpoint`, `params.shuffle`
and `params.fold` (lines 32-33). -/
def mkVAEParams (a : Args) (h : Hyper) : VAEParams :=
  ⟨a.endpoint, a.shuffle, a.fold, h.epochs, h.lr, h.batch_size,
    h.resultsbase, h.input_types_all⟩

/-- The external collaborators of `main.py`, abstracted.  `D` is the type
of (pandas) dataframes. -/
structure MainExt (P T G O D : Type) where
  /-- `parse_all(params.endpoint)` (line 32) -/
  parse_all : String → D
  /-- `kfold_split(full_dataframe, params.shuffle, params.fold)` (line 33) -/
  kfold_split : D → Int → Int → D × D
  /-- `scale_impute(train_dataframe, valid_dataframe)` (line 34) -/
  scale_impute : D × D → D × D
  /-- `DataLoader(Dataset(df, input_types_all), batch_size, shuffle=True)`
  (line 36); batching and shuffling are abstracted into this function -/
  trainloaderOf : D → List String → Nat → List (Batch T)
  /-- `DataLoader(Dataset(df, input_types_all), batch_size=128, shuffle=False)`
  (line 37) -/
  validloaderOf : D → List String → List (Batch T)
  /-- `Model(...)` (lines 39-45) plus the fresh Adam state created inside
  `fit` (line 34 of `fit.py`): the initial `TState` -/
  initModel : VAEParams → TState P G O

/-- Modelled from the spec: `predict_to_csv(model, validloader, path)`
(`predict.py` is not under `src/`; per the spec, predictions on the
validation loader are written to the given csv path).  Modelled as a
single file-write event to that path. -/
def predict_to_csv (_st : TState P G O) (_validloader : List (Batch T))
    (path : String) : List (Ev G) :=
  [Ev.writeFile path]

/-- Modelled from the spec: `plot_results_to_pdf(jsonpath, pdfpath)`
(`plotlosses.py` is not under `src/`; per the spec, losses and metrics are
plotted to the given pdf path).  Modelled as a single file-write event to
the pdf path. -/
def plot_results_to_pdf (_jsonpath pdfpath : String) : List (Ev G) :=
  [Ev.writeFile pdfpath]

/-- `main.py` lines 32-33: `full_dataframe = parse_all(params.endpoint)`
then `kfold_split(full_dataframe, params.shuffle, params.fold)`. -/
def splitOf (ext : MainExt P T G O D) (ps : VAEParams) : D × D :=
  ext.kfold_split (ext.parse_all ps.endpoint) ps.shuffle ps.fold

/-- `main.py` lines 34-37: scale/impute the split and build the two data
loaders. -/
def loadersOf (ext : MainExt P T G O D) (ps : VAEParams) :
    List (Batch T) × List (Batch T) :=
  (ext.trainloaderOf (ext.scale_impute (splitOf ext ps)).1 ps.input_types_all
     ps.batch_size,
   ext.validloaderOf (ext.scale_impute (splitOf ext ps)).2 ps.input_types_all)

/-- The observable outcome of a successful `main.py` run. -/
structure MainOut (P T G O D : Type) where
  params : VAEParams
  split : D × D
  trainloader : List (Batch T)
  validloader : List (Batch T)
  fitOut : FitOutcome P G O
  trace : List (Ev G)

/-- The `main.py` script (lines 22-54): parse the arguments (an invalid
choice aborts immediately, before any data is loaded), build the params,
parse the dataset, k-fold split it, scale/impute, build the loaders and
the model, `fit`, `predict_to_csv` to `<prefix>.csv`, and
`plot_results_to_pdf` to `<prefix>.pdf`.  An `AssertionError` escaping
`fit` aborts the run before the csv and pdf writes. -/
def main (ext : MainExt P T G O D) (fw : Framework P T G O) (hy : Hyper)
    (endpoint : String) (shuffle fold : Int) :
    Except String (MainOut P T G O D) :=
  match parse_args endpoint shuffle fold with
  | .error e => .error e
  | .ok args =>
    match fit fw (ext.initModel (mkVAEParams args hy))
        (loadersOf ext (mkVAEParams args hy)).1
        (loadersOf ext (mkVAEParams args hy)).2 (mkVAEParams args hy) with
    | .error _ => .error "AssertionError"
    | .ok fo =>
      .ok ⟨mkVAEParams args hy, splitOf ext (mkVAEParams args hy),
        (loadersOf ext (mkVAEParams args hy)).1,
        (loadersOf ext (mkVAEParams args hy)).2, fo,
        fo.trace
          ++ predict_to_csv fo.state (loadersOf ext (mkVAEParams args hy)).2
               ((mkVAEParams args hy).resultsbase ++ ".csv")
          ++ plot_results_to_pdf ((mkVAEParams args hy).resultsbase ++ ".json")
               ((mkVAEParams args hy).resultsbase ++ ".pdf")⟩

/-! Trace projections used to state the claims. -/

/-- The losses carried by the `backward` events of a trace, in order. -/
def backLosses (tr : List (Ev G)) : List FVal :=
  tr.filterMap (fun ev => match ev with | Ev.backward l _ => some l | _ => none)

/-- The single-batch gradient contributions carried by the `backward`
events of a trace, in order. -/
def backGrads (tr : List (Ev G)) : List G :=
  tr.filterMap (fun ev => match ev with | Ev.backward _ g => some g | _ => none)

/-- The stored gradients consumed by the `optStep` events of a trace, in
order. -/
def stepGrads (tr : List (Ev G)) : List G :=
  tr.filterMap (fun ev => match ev with | Ev.optStep g => some g | _ => none)

/-- Number of `optimizer.zero_grad()` calls in a trace. -/
def countZeroGrad (tr : List (Ev G)) : Nat :=
  tr.countP (fun ev => match ev with | Ev.zeroGrad => true | _ => false)

/-- Number of `ConcordanceIndex` calls in a trace. -/
def countCindex (tr : List (Ev G)) : Nat :=
  tr.countP (fun ev => match ev with | Ev.cindexCall => true | _ => false)

/-- The file paths written by a trace, in order. -/
def writeNames (tr : List (Ev G)) : List String :=
  tr.filterMap (fun ev => match ev with | Ev.writeFile s => some s | _ => none)

/-- The train/valid phase markers of a trace: `(epoch, true)` for a
`train_step(epoch)` call, `(epoch, false)` for a `valid_step(epoch)` call. -/
def phases (tr : List (Ev G)) : List (Nat × Bool) :=
  tr.filterMap (fun ev => match ev with
    | Ev.phaseTrain e => some (e, true)
    | Ev.phaseValid e => some (e, false)
    | _ => none)

/-- The grad-mode flags of the forward passes of a trace, in order. -/
def fwdModes (tr : List (Ev G)) : List Bool :=
  tr.filterMap (fun ev => match ev with | Ev.fwd m => some m | _ => none)

/-- The states at the start of each successful training-loop iteration
(the trajectory of the parameter updates across an epoch's batches). -/
def trainStates (fw : Framework P T G O) (lr : ℚ) :
    TState P G O → List (Batch T) → List (TState P G O)
  | _, [] => []
  | st, b :: bs => st :: trainStates fw lr (trainNext fw lr st b) bs

/-- Running accumulated sums of gradient contributions, starting from a
stored gradient `g0`: element `k` is `g0 + g 1 + ... + g (k+1)`. -/
def runningSums (fw : Framework P T G O) : G → List G → List G
  | _, [] => []
  | g0, g :: gs => fw.gadd g0 g :: runningSums fw (fw.gadd g0 g) gs

/-! Concrete instantiations used for witnesses and counterexamples:
parameters and gradients are rationals, tensors and dataframes are `Unit`,
the model has one VAE input type and the losses are non-NaN constants. -/

/-- A concrete framework instance: one modality `"gene"`, constant losses
`1`, `2`, `3`, gradient contribution `1` per batch, additive gradient
accumulation and gradient-descent-shaped update. -/
def fwEx : Framework ℤ Unit ℤ Unit where
  input_types_vae := ["gene"]
  input_types_subtask := []
  forward := fun _ _ _ => ([()], (), (), ())
  flatten := fun t => t
  cat := fun _ => ()
  kl_loss_func := fun _ _ => FVal.num 1
  mse_loss := fun _ _ => FVal.num 2
  survival_loss_func := fun _ _ _ => FVal.num 3
  ConcordanceIndex := fun _ _ _ => FVal.num 1
  gradOf := fun _ _ _ => 1
  gzero := 0
  gadd := fun a b => a + b
  stepUpd := fun _ p g o => (p - g, o)

/-- Same as `fwEx` but the KL loss evaluates to NaN. -/
def fwNan : Framework ℤ Unit ℤ Unit where
  input_types_vae := ["gene"]
  input_types_subtask := []
  forward := fun _ _ _ => ([()], (), (), ())
  flatten := fun t => t
  cat := fun _ => ()
  kl_loss_func := fun _ _ => FVal.nan
  mse_loss := fun _ _ => FVal.num 2
  survival_loss_func := fun _ _ _ => FVal.num 3
  ConcordanceIndex := fun _ _ _ => FVal.num 1
  gradOf := fun _ _ _ => 1
  gzero := 0
  gadd := fun a b => a + b
  stepUpd := fun _ p g o => (p - g, o)

/-- A concrete batch. -/
def bEx : Batch Unit := ⟨fun _ => (), (), ()⟩

/-- A concrete initial state. -/
def stEx : TState ℤ ℤ Unit := ⟨0, 0, (), false⟩

/-- Concrete hyperparameters: one epoch. -/
def hyEx : Hyper := ⟨1, 1, 4, "results/vae", ["gene"]⟩

/-- Concrete params built from the concrete arguments. -/
def psEx : VAEParams := mkVAEParams ⟨"pfs", 0, 0⟩ hyEx

/-- Concrete external collaborators for `main.py`. -/
def extEx : MainExt ℤ Unit ℤ Unit Unit where
  parse_all := fun _ => ()
  kfold_split := fun _ _ _ => ((), ())
  scale_impute := fun d => d
  trainloaderOf := fun _ _ _ => [bEx]
  validloaderOf := fun _ _ => [bEx]
  initModel := fun _ => stEx

/-! Helper lemmas. -/

theorem add_nonNan {a b : FVal} (ha : a.isNan = false) (hb : b.isNan = false) :
    (a.add b).isNan = false := by
  cases a <;> cases b <;> simp_all [FVal.add, FVal.isNan]

theorem fsum_nonNan {l : List FVal} (h : ∀ v ∈ l, v.isNan = false) :
    (fsum l).isNan = false := by
  suffices h' : ∀ a : FVal, a.isNan = false →
      (l.foldl FVal.add a).isNan = false from h' _ rfl
  induction l with
  | nil => intro a ha; simpa using ha
  | cons x xs ih =>
    intro a ha
    simp only [List.foldl_cons]
    exact ih (fun v hv => h v (List.mem_cons_of_mem _ hv)) _
      (add_nonNan ha (h x (List.mem_cons_self _ _)))

theorem zipAdd_nonNan {a l : List FVal} (ha : ∀ v ∈ a, v.isNan = false)
    (hl : ∀ v ∈ l, v.isNan = false) :
    ∀ v ∈ List.zipWith FVal.add a l, v.isNan = false := by
  induction a generalizing l with
  | nil => simp
  | cons x xs ih =>
    cases l with
    | nil => simp
    | cons y ys =>
      intro v hv
      simp only [List.zipWith_cons_cons, List.mem_cons] at hv
      rcases hv with hv | hv
      · subst hv
        exact add_nonNan (ha x (List.mem_cons_self _ _)) (hl y (List.mem_cons_self _ _))
      · exact ih (fun v hv => ha v (List.mem_cons_of_mem _ hv))
          (fun v hv => hl v (List.mem_cons_of_mem _ hv)) v hv

theorem vecSum_nonNan {n : Nat} {ls : List (List FVal)}
    (h : ∀ l ∈ ls, ∀ v ∈ l, v.isNan = false) :
    ∀ v ∈ vecSum n ls, v.isNan = false := by
  unfold vecSum
  suffices h' : ∀ a : List FVal, (∀ v ∈ a, v.isNan = false) →
      ∀ v ∈ ls.foldl (fun a l => List.zipWith FVal.add a l) a, v.isNan = false by
    refine h' _ ?_
    intro v hv
    rw [List.eq_of_mem_replicate hv]
    rfl
  induction ls with
  | nil => intro a ha; simpa using ha
  | cons l ls ih =>
    intro a ha
    simp only [List.foldl_cons]
    exact ih (fun l' hl' => h l' (List.mem_cons_of_mem _ hl')) _
      (zipAdd_nonNan ha (h l (List.mem_cons_self _ _)))

theorem zipAdd_getD {a l : List FVal} {i : Nat} (hi : i < a.length)
    (hil : i < l.length) :
    (List.zipWith FVal.add a l).getD i FVal.nan =
      FVal.add (a.getD i FVal.nan) (l.getD i FVal.nan) := by
  induction a generalizing l i with
  | nil => simp at hi
  | cons x xs ih =>
    cases l with
    | nil => simp at hil
    | cons y ys =>
      cases i with
      | zero => simp
      | succ j =>
        simp only [List.zipWith_cons_cons, List.getD_cons_succ]
        exact ih (Nat.lt_of_succ_lt_succ hi) (Nat.lt_of_succ_lt_succ hil)

theorem vecSum_length {n : Nat} {ls : List (List FVal)}
    (hlen : ∀ l ∈ ls, l.length = n) : (vecSum n ls).length = n := by
  unfold vecSum
  suffices h' : ∀ a : List FVal, a.length = n →
      (ls.foldl (fun a l => List.zipWith FVal.add a l) a).length = n from
    h' _ (List.length_replicate _ _)
  induction ls with
  | nil => intro a ha; simpa using ha
  | cons l ls ih =>
    intro a ha
    simp only [List.foldl_cons]
    refine ih (fun l' hl' => hlen l' (List.mem_cons_of_mem _ hl')) _ ?_
    rw [List.length_zipWith, ha, hlen l (List.mem_cons_self _ _)]
    exact Nat.min_self n

theorem getD_replicate_lt {α : Type} {x d : α} {n i : Nat} (hi : i < n) :
    (List.replicate n x).getD i d = x := by
  induction n generalizing i with
  | zero => omega
  | succ m ih =>
    cases i with
    | zero => simp [List.replicate]
    | succ j =>
      simp only [List.replicate, List.getD_cons_succ]
      exact ih (Nat.lt_of_succ_lt_succ hi)

theorem vecSum_getD {n i : Nat} {ls : List (List FVal)}
    (hlen : ∀ l ∈ ls, l.length = n) (hi : i < n) :
    (vecSum n ls).getD i FVal.nan =
      fsum (ls.map (fun l => l.getD i FVal.nan)) := by
  unfold vecSum fsum
  suffices h' : ∀ a : List FVal, a.length = n →
      (ls.foldl (fun a l => List.zipWith FVal.add a l) a).getD i FVal.nan =
        (ls.map (fun l => l.getD i FVal.nan)).foldl FVal.add (a.getD i FVal.nan) by
    rw [h' _ (List.length_replicate _ _), getD_replicate_lt hi]
  induction ls with
  | nil => intro a _; simp
  | cons l ls ih =>
    intro a ha
    simp only [List.foldl_cons, List.map_cons]
    have hlen' : (List.zipWith FVal.add a l).length = n := by
      rw [List.length_zipWith, ha, hlen l (List.mem_cons_self _ _)]
      exact Nat.min_self n
    have hia : i < a.length := by rw [ha]; exact hi
    have hil : i < l.length := by rw [hlen l (List.mem_cons_self _ _)]; exact hi
    rw [ih (fun l' hl' => hlen l' (List.mem_cons_of_mem _ hl')) _ hlen',
      zipAdd_getD hia hil]

theorem accKL_eq_fsum (ls : List LossOut) :
    accKL ls = fsum (ls.map (fun o => o.kl)) := by
  simp [accKL, fsum, List.foldl_map]

theorem accSurv_eq_fsum (ls : List LossOut) :
    accSurv ls = fsum (ls.map (fun o => o.surv)) := by
  simp [accSurv, fsum, List.foldl_map]

theorem mapOkInv {ε α β : Type} {x : Except ε α} {f : α → β} {r : β}
    (h : Except.map f x = .ok r) : ∃ v, x = .ok v ∧ r = f v := by
  cases x with
  | error e => simp [Except.map] at h
  | ok v => exact ⟨v, rfl, (Except.ok.inj h).symm⟩

theorem assertsOk_facts {fw : Framework P T G O} {mode : Bool} {p : P} {b : Batch T}
    (h : assertsOk fw mode p b = true) :
    (forwardAt fw mode p b).1.length = (inputsVae fw b).length ∧
    (batchKL fw mode p b).isNan = false ∧
    (∀ v ∈ batchRecons fw mode p b, v.isNan = false) ∧
    (batchSurv fw mode p b).isNan = false ∧
    (batchRecons fw mode p b).length = fw.input_types_vae.length := by
  unfold assertsOk at h
  simp only [Bool.and_eq_true, beq_iff_eq, Bool.not_eq_true',
    List.any_eq_false, Bool.not_eq_true] at h
  obtain ⟨⟨⟨h1, h2⟩, h3⟩, h4⟩ := h
  refine ⟨h1, h2, h3, h4, ?_⟩
  have hvae : (inputsVae fw b).length = fw.input_types_vae.length := by
    simp [inputsVae]
  rw [batchRecons, List.length_zipWith, List.length_zip, h1, hvae]
  simp [reconstruction_loss_funcs]

theorem trainOne_ok {fw : Framework P T G O} {lr : ℚ} {st : TState P G O}
    {b : Batch T} {r} (h : trainOne fw lr st b = .ok r) :
    assertsOk fw st.mode st.params b = true ∧
    r = (trainNext fw lr st b, mkTrainOut fw st b,
      [Ev.fwd true,
       Ev.backward (batchLoss fw st.mode st.params b) (fw.gradOf st.mode st.params b),
       Ev.optStep (fw.gadd st.grad (fw.gradOf st.mode st.params b))]) := by
  unfold trainOne at h
  split at h
  · next hg => exact ⟨hg, (Except.ok.inj h).symm⟩
  · exact absurd h (by simp)

theorem validOne_ok {fw : Framework P T G O} {st : TState P G O}
    {b : Batch T} {r} (h : validOne fw st b = .ok r) :
    assertsOk fw st.mode st.params b = true ∧
    r = (st, mkValidOut fw st b, [Ev.fwd false]) := by
  unfold validOne at h
  split at h
  · next hg => exact ⟨hg, (Except.ok.inj h).symm⟩
  · exact absurd h (by simp)

theorem trainOne_error {fw : Framework P T G O} {lr : ℚ} {st : TState P G O}
    {b : Batch T} (h : assertsOk fw st.mode st.params b = false) :
    trainOne fw lr st b = .error () := by
  unfold trainOne
  rw [h]
  simp

theorem validOne_error {fw : Framework P T G O} {st : TState P G O}
    {b : Batch T} (h : assertsOk fw st.mode st.params b = false) :
    validOne fw st b = .error () := by
  unfold validOne
  rw [h]
  simp

theorem trainBatches_nil {fw : Framework P T G O} {lr : ℚ} {st : TState P G O} {r}
    (h : trainBatches fw lr st [] = .ok r) : r = (st, [], []) :=
  (Except.ok.inj h).symm

theorem trainBatches_cons {fw : Framework P T G O} {lr : ℚ} {st : TState P G O}
    {b : Batch T} {bs : List (Batch T)} {r}
    (h : trainBatches fw lr st (b :: bs) = .ok r) :
    assertsOk fw st.mode st.params b = true ∧
    ∃ st2 outs tr2,
      trainBatches fw lr (trainNext fw lr st b) bs = .ok (st2, outs, tr2) ∧
      r = (st2, mkTrainOut fw st b :: outs,
        [Ev.fwd true,
         Ev.backward (batchLoss fw st.mode st.params b) (fw.gradOf st.mode st.params b),
         Ev.optStep (fw.gadd st.grad (fw.gradOf st.mode st.params b))] ++ tr2) := by
  unfold trainBatches at h
  cases h1 : trainOne fw lr st b with
  | error e => rw [h1] at h; exact absurd h (by simp)
  | ok v =>
    obtain ⟨hok, hv⟩ := trainOne_ok h1
    rw [h1, hv] at h
    dsimp only at h
    cases h2 : trainBatches fw lr (trainNext fw lr st b) bs with
    | error e => rw [h2] at h; exact absurd h (by simp)
    | ok w =>
      obtain ⟨w1, w2, w3⟩ := w
      rw [h2] at h
      exact ⟨hok, w1, w2, w3, rfl, (Except.ok.inj h).symm⟩

theorem validBatches_nil {fw : Framework P T G O} {st : TState P G O} {r}
    (h : validBatches fw st [] = .ok r) : r = (st, [], []) :=
  (Except.ok.inj h).symm

theorem validBatches_cons {fw : Framework P T G O} {st : TState P G O}
    {b : Batch T} {bs : List (Batch T)} {r}
    (h : validBatches fw st (b :: bs) = .ok r) :
    assertsOk fw st.mode st.params b = true ∧
    ∃ st2 outs tr2,
      validBatches fw st bs = .ok (st2, outs, tr2) ∧
      r = (st2, mkValidOut fw st b :: outs, [Ev.fwd false] ++ tr2) := by
  unfold validBatches at h
  cases h1 : validOne fw st b with
  | error e => rw [h1] at h; exact absurd h (by simp)
  | ok v =>
    obtain ⟨hok, hv⟩ := validOne_ok h1
    rw [h1, hv] at h
    dsimp only at h
    cases h2 : validBatches fw st bs with
    | error e => rw [h2] at h; exact absurd h (by simp)
    | ok w =>
      obtain ⟨w1, w2, w3⟩ := w
      rw [h2] at h
      exact ⟨hok, w1, w2, w3, rfl, (Except.ok.inj h).symm⟩

/-- Structural facts about a successful pass over the training loader:
the per-batch outputs follow the state trajectory, the trace's backward
losses are the per-batch joint losses, each `optimizer.step` consumes the
running sum of the gradient contributions so far (accumulated from the
stored gradient at loop entry), and the loop itself emits no `zero_grad`,
concordance, file-write or phase event and runs every forward pass with
gradients enabled. -/
theorem trainBatches_spec {fw : Framework P T G O} {lr : ℚ} :
    ∀ {st : TState P G O} {bs : List (Batch T)} {st' outs tr},
    trainBatches fw lr st bs = .ok (st', outs, tr) →
    outs = List.zipWith (fun s b => mkTrainOut fw s b) (trainStates fw lr st bs) bs ∧
    backLosses tr = outs.map (fun o => o.lossBp) ∧
    stepGrads tr = runningSums fw st.grad (backGrads tr) ∧
    countZeroGrad tr = 0 ∧ countCindex tr = 0 ∧ writeNames tr = [] ∧
    phases tr = [] ∧ fwdModes tr = List.replicate bs.length true ∧
    st'.mode = st.mode := by
  intro st bs
  induction bs generalizing st with
  | nil =>
    intro st' outs tr h
    have h' := trainBatches_nil h
    simp only [Prod.mk.injEq] at h'
    obtain ⟨h1, h2, h3⟩ := h'
    subst h1; subst h2; subst h3
    exact ⟨rfl, rfl, rfl, rfl, rfl, rfl, rfl, rfl, rfl⟩
  | cons b bs ih =>
    intro st' outs tr h
    obtain ⟨hok, st2, outs2, tr2, h2, hr⟩ := trainBatches_cons h
    simp only [Prod.mk.injEq] at hr
    obtain ⟨h1, h4, h5⟩ := hr
    subst h1; subst h4; subst h5
    obtain ⟨ho, hbl, hsg, hz, hc, hw, hp, hf, hm⟩ := ih h2
    refine ⟨?_, ?_, ?_, ?_, ?_, ?_, ?_, ?_, ?_⟩
    · simp only [trainStates, List.zipWith_cons_cons]
      rw [ho]
    · simp only [backLosses, List.filterMap_append, List.filterMap_cons,
        List.filterMap_nil, List.map_cons]
      rw [backLosses] at hbl
      rw [hbl]
      rfl
    · simp only [stepGrads, backGrads, List.filterMap_append, List.filterMap_cons,
        List.filterMap_nil]
      rw [stepGrads, backGrads] at hsg
      rw [hsg]
      rfl
    · simp only [countZeroGrad, List.countP_append, List.countP_cons]
      rw [countZeroGrad] at hz
      rw [hz]
      rfl
    · simp only [countCindex, List.countP_append, List.countP_cons]
      rw [countCindex] at hc
      rw [hc]
      rfl
    · simp only [writeNames, List.filterMap_append, List.filterMap_cons,
        List.filterMap_nil]
      rw [writeNames] at hw
      rw [hw]
      rfl
    · simp only [phases, List.filterMap_append, List.filterMap_cons,
        List.filterMap_nil]
      rw [phases] at hp
      rw [hp]
      rfl
    · simp only [fwdModes, List.filterMap_append, List.filterMap_cons,
        List.filterMap_nil]
      rw [fwdModes] at hf
      rw [hf]
      rfl
    · exact hm

/-- Loss-level facts about every per-batch output of a successful pass
over the training loader: each batch's recorded losses passed the NaN
asserts, the reconstruction-loss list has one entry per VAE input type,
and the backpropagated loss is the KL loss plus the survival loss plus
the sum of the reconstruction losses. -/
theorem trainBatches_outs {fw : Framework P T G O} {lr : ℚ} :
    ∀ {st : TState P G O} {bs : List (Batch T)} {st' outs tr},
    trainBatches fw lr st bs = .ok (st', outs, tr) →
    ∀ o ∈ outs, o.losses.kl.isNan = false ∧
      (∀ v ∈ o.losses.recons, v.isNan = false) ∧
      o.losses.surv.isNan = false ∧
      o.losses.recons.length = fw.input_types_vae.length ∧
      o.lossBp = (o.losses.kl.add o.losses.surv).add (fsum o.losses.recons) := by
  intro st bs
  induction bs generalizing st with
  | nil =>
    intro st' outs tr h
    have h' := trainBatches_nil h
    simp only [Prod.mk.injEq] at h'
    obtain ⟨_, h2, _⟩ := h'
    subst h2
    intro o ho
    exact absurd ho (List.not_mem_nil o)
  | cons b bs ih =>
    intro st' outs tr h
    obtain ⟨hok, st2, outs2, tr2, h2, hr⟩ := trainBatches_cons h
    simp only [Prod.mk.injEq] at hr
    obtain ⟨_, h4, _⟩ := hr
    subst h4
    intro o ho
    rcases List.mem_cons.mp ho with ho | ho
    · subst ho
      obtain ⟨_, hkl, hrec, hsv, hlen⟩ := assertsOk_facts hok
      exact ⟨hkl, hrec, hsv, hlen, rfl⟩
    · exact ih h2 o ho

/-- Structural facts about a successful pass over the validation loader:
the state is returned unchanged, the outputs are the per-batch records at
the (fixed) entry state, and the trace is one gradient-disabled forward
pass per batch. -/
theorem validBatches_spec {fw : Framework P T G O} :
    ∀ {st : TState P G O} {bs : List (Batch T)} {st' outs tr},
    validBatches fw st bs = .ok (st', outs, tr) →
    st' = st ∧ outs = bs.map (mkValidOut fw st) ∧
    tr = List.replicate bs.length (Ev.fwd false) ∧
    ∀ b ∈ bs, assertsOk fw st.mode st.params b = true := by
  intro st bs
  induction bs generalizing st with
  | nil =>
    intro st' outs tr h
    have h' := validBatches_nil h
    simp only [Prod.mk.injEq] at h'
    obtain ⟨h1, h2, h3⟩ := h'
    subst h1; subst h2; subst h3
    exact ⟨rfl, rfl, rfl, fun b hb => absurd hb (List.not_mem_nil b)⟩
  | cons b bs ih =>
    intro st' outs tr h
    obtain ⟨hok, st2, outs2, tr2, h2, hr⟩ := validBatches_cons h
    simp only [Prod.mk.injEq] at hr
    obtain ⟨h1, h4, h5⟩ := hr
    subst h1; subst h4; subst h5
    obtain ⟨h1, h4, h5, h6⟩ := ih h2
    subst h1
    refine ⟨rfl, ?_, ?_, ?_⟩
    · rw [List.map_cons, h4]
    · simp [List.length_cons, List.replicate_succ, h5]
    · intro b' hb'
      rcases List.mem_cons.mp hb' with hb' | hb'
      · subst hb'
        exact hok
      · exact h6 b' hb'

/-- Loss-level facts about every per-batch output of a successful pass
over the validation loader. -/
theorem validBatches_outs {fw : Framework P T G O} {st : TState P G O}
    {bs : List (Batch T)} {st' outs tr}
    (h : validBatches fw st bs = .ok (st', outs, tr)) :
    ∀ o ∈ outs, o.losses.kl.isNan = false ∧
      (∀ v ∈ o.losses.recons, v.isNan = false) ∧
      o.losses.surv.isNan = false ∧
      o.losses.recons.length = fw.input_types_vae.length := by
  obtain ⟨h1, h4, _, h6⟩ := validBatches_spec h
  subst h4
  intro o ho
  obtain ⟨b, hb, rfl⟩ := List.mem_map.mp ho
  obtain ⟨_, hkl, hrec, hsv, hlen⟩ := assertsOk_facts (h6 b hb)
  exact ⟨hkl, hrec, hsv, hlen⟩

theorem trainStep_ok {fw : Framework P T G O} {lr : ℚ} {tl : List (Batch T)}
    {st : TState P G O} {r} (h : trainStep fw lr tl st = .ok r) :
    ∃ st2 outs tr,
      trainBatches fw lr ⟨st.params, fw.gzero, st.opt, true⟩ tl = .ok (st2, outs, tr) ∧
      r = (st2, trainLog fw outs, outs, Ev.modelTrain :: Ev.zeroGrad :: tr) := by
  unfold trainStep at h
  obtain ⟨v, hv, hr⟩ := mapOkInv h
  obtain ⟨st2, outs, tr⟩ := v
  exact ⟨st2, outs, tr, hv, hr⟩

theorem validStep_ok {fw : Framework P T G O} {vl : List (Batch T)}
    {st : TState P G O} {r} (h : validStep fw vl st = .ok r) :
    ∃ st1 outs tr,
      validBatches fw ⟨st.params, st.grad, st.opt, false⟩ vl = .ok (st1, outs, tr) ∧
      outs ≠ [] ∧
      r = (st1, validLog fw outs (vmetric fw outs), outs, vmetric fw outs,
        (Ev.modelEval :: tr) ++ [Ev.cindexCall]) := by
  unfold validStep at h
  dsimp only at h
  cases hv : validBatches fw ⟨st.params, st.grad, st.opt, false⟩ vl with
  | error e => rw [hv] at h; exact absurd h (by simp)
  | ok w =>
    obtain ⟨st1, outs, tr⟩ := w
    rw [hv] at h
    dsimp only at h
    cases outs with
    | nil => exact absurd h (by simp [torchCat])
    | cons b bs =>
      refine ⟨st1, b :: bs, tr, rfl, by simp, ?_⟩
      dsimp only [List.map_cons, torchCat] at h
      exact (Except.ok.inj h).symm

/-- A value logged in the results history is non-NaN. -/
def ValNonNan : LogVal → Prop
  | .scalar v => v.isNan = false
  | .table kvs => ∀ p ∈ kvs, p.2.isNan = false

/-- Every loss value of a per-epoch log (every entry except the `metric`
key) is non-NaN. -/
def LogNonNan (l : AssocLog) : Prop :=
  ∀ kv ∈ l, kv.1 ≠ "metric" → ValNonNan kv.2

/-- Facts shared by the loss entries of train and valid logs: given
per-batch loss records that all passed the NaN asserts and all have one
reconstruction entry per VAE input type, the accumulated scalars and the
accumulated reconstruction table values are all non-NaN. -/
theorem accs_nonNan {fw : Framework P T G O} {ls : List LossOut}
    (h : ∀ o ∈ ls, o.kl.isNan = false ∧ (∀ v ∈ o.recons, v.isNan = false) ∧
      o.surv.isNan = false ∧ o.recons.length = fw.input_types_vae.length) :
    (accKL ls).isNan = false ∧ (accSurv ls).isNan = false ∧
    ∀ v ∈ vecSum fw.input_types_vae.length (ls.map (fun o => o.recons)),
      v.isNan = false := by
  refine ⟨?_, ?_, ?_⟩
  · rw [accKL_eq_fsum]
    refine fsum_nonNan ?_
    intro v hv
    obtain ⟨o, ho, rfl⟩ := List.mem_map.mp hv
    exact (h o ho).1
  · rw [accSurv_eq_fsum]
    refine fsum_nonNan ?_
    intro v hv
    obtain ⟨o, ho, rfl⟩ := List.mem_map.mp hv
    exact (h o ho).2.2.1
  · refine vecSum_nonNan ?_
    intro l hl
    obtain ⟨o, ho, rfl⟩ := List.mem_map.mp hl
    exact (h o ho).2.1

theorem length_map_recons {fw : Framework P T G O} {ls : List LossOut}
    (h : ∀ o ∈ ls, o.recons.length = fw.input_types_vae.length) :
    ∀ l ∈ ls.map (fun o => o.recons), l.length = fw.input_types_vae.length := by
  intro l hl
  obtain ⟨o, ho, rfl⟩ := List.mem_map.mp hl
  exact h o ho

/-- The training log of an epoch: its keys, the shape of its
reconstruction-loss table, and (given per-batch facts) non-NaN values. -/
theorem trainLog_shape {fw : Framework P T G O} {outs : List (TrainOut G)}
    (h : ∀ o ∈ outs, o.losses.kl.isNan = false ∧
      (∀ v ∈ o.losses.recons, v.isNan = false) ∧ o.losses.surv.isNan = false ∧
      o.losses.recons.length = fw.input_types_vae.length) :
    (trainLog fw outs).map Prod.fst =
      ["kl_loss", "reconstruction_loss", "survival_loss"] ∧
    (∃ kvs, List.lookup "reconstruction_loss" (trainLog fw outs) =
      some (LogVal.table kvs) ∧ kvs.map Prod.fst = fw.input_types_vae) ∧
    LogNonNan (trainLog fw outs) := by
  have h' : ∀ o ∈ outs.map (fun o => o.losses), o.kl.isNan = false ∧
      (∀ v ∈ o.recons, v.isNan = false) ∧ o.surv.isNan = false ∧
      o.recons.length = fw.input_types_vae.length := by
    intro o ho
    obtain ⟨o', ho', rfl⟩ := List.mem_map.mp ho
    exact h o' ho'
  obtain ⟨hkl, hsv, hvs⟩ := accs_nonNan h'
  have hlen : (vecSum fw.input_types_vae.length
      ((outs.map (fun o => o.losses)).map (fun o => o.recons))).length =
      fw.input_types_vae.length :=
    vecSum_length (length_map_recons (fun o ho => (h' o ho).2.2.2))
  have hmm : (outs.map (fun o => o.losses)).map (fun (o : LossOut) => o.recons) =
      outs.map (fun o => o.losses.recons) := by
    simp [List.map_map]
  rw [hmm] at hvs hlen
  refine ⟨rfl, ⟨_, rfl, ?_⟩, ?_⟩
  · rw [List.map_fst_zip]
    rw [hlen]
  · intro kv hkv _
    simp only [trainLog, List.mem_cons, List.not_mem_nil, or_false] at hkv
    rcases hkv with hkv | hkv | hkv
    · subst hkv; exact hkl
    · subst hkv
      intro p hp
      have := List.of_mem_zip hp
      exact hvs p.2 this.2
    · subst hkv; exact hsv

/-- The validation log of an epoch: keys, table shape, and non-NaN loss
values (the `metric` entry is exempt). -/
theorem validLog_shape {fw : Framework P T G O} {outs : List (ValidOut T)} {m : FVal}
    (h : ∀ o ∈ outs, o.losses.kl.isNan = false ∧
      (∀ v ∈ o.losses.recons, v.isNan = false) ∧ o.losses.surv.isNan = false ∧
      o.losses.recons.length = fw.input_types_vae.length) :
    (validLog fw outs m).map Prod.fst =
      ["kl_loss", "reconstruction_loss", "survival_loss", "metric"] ∧
    (∃ kvs, List.lookup "reconstruction_loss" (validLog fw outs m) =
      some (LogVal.table kvs) ∧ kvs.map Prod.fst = fw.input_types_vae) ∧
    LogNonNan (validLog fw outs m) := by
  have h' : ∀ o ∈ outs.map (fun o => o.losses), o.kl.isNan = false ∧
      (∀ v ∈ o.recons, v.isNan = false) ∧ o.surv.isNan = false ∧
      o.recons.length = fw.input_types_vae.length := by
    intro o ho
    obtain ⟨o', ho', rfl⟩ := List.mem_map.mp ho
    exact h o' ho'
  obtain ⟨hkl, hsv, hvs⟩ := accs_nonNan h'
  have hlen : (vecSum fw.input_types_vae.length
      ((outs.map (fun o => o.losses)).map (fun o => o.recons))).length =
      fw.input_types_vae.length :=
    vecSum_length (length_map_recons (fun o ho => (h' o ho).2.2.2))
  have hmm : (outs.map (fun o => o.losses)).map (fun (o : LossOut) => o.recons) =
      outs.map (fun o => o.losses.recons) := by
    simp [List.map_map]
  rw [hmm] at hvs hlen
  refine ⟨rfl, ⟨_, rfl, ?_⟩, ?_⟩
  · rw [List.map_fst_zip]
    rw [hlen]
  · intro kv hkv hne
    simp only [validLog, List.mem_cons, List.not_mem_nil, or_false] at hkv
    rcases hkv with hkv | hkv | hkv | hkv
    · subst hkv; exact hkl
    · subst hkv
      intro p hp
      have := List.of_mem_zip hp
      exact hvs p.2 this.2
    · subst hkv; exact hsv
    · subst hkv; exact absurd rfl hne

theorem runEpochs_nil {fw : Framework P T G O} {lr : ℚ} {tl vl : List (Batch T)}
    {st : TState P G O} {e : Nat} {r}
    (h : runEpochs fw lr tl vl st e 0 = .ok r) : r = (st, [], []) :=
  (Except.ok.inj h).symm

theorem runEpochs_succ {fw : Framework P T G O} {lr : ℚ} {tl vl : List (Batch T)}
    {st : TState P G O} {e n : Nat} {r}
    (h : runEpochs fw lr tl vl st e (n + 1) = .ok r) :
    ∃ st1 trLog outs1 tr1 st2 vlLog outs2 m tr2 st3 hist tr3,
      trainStep fw lr tl st = .ok (st1, trLog, outs1, tr1) ∧
      validStep fw vl st1 = .ok (st2, vlLog, outs2, m, tr2) ∧
      runEpochs fw lr tl vl st2 (e + 1) n = .ok (st3, hist, tr3) ∧
      r = (st3, (e, ⟨trLog, vlLog⟩) :: hist,
        (Ev.phaseTrain e :: tr1) ++ (Ev.phaseValid e :: tr2) ++ tr3) := by
  unfold runEpochs at h
  cases h1 : trainStep fw lr tl st with
  | error err => rw [h1] at h; exact absurd h (by simp)
  | ok v =>
    obtain ⟨st1, trLog, outs1, tr1⟩ := v
    rw [h1] at h
    dsimp only at h
    cases h2 : validStep fw vl st1 with
    | error err => rw [h2] at h; exact absurd h (by simp)
    | ok w =>
      obtain ⟨st2, vlLog, outs2, m, tr2⟩ := w
      rw [h2] at h
      dsimp only at h
      cases h3 : runEpochs fw lr tl vl st2 (e + 1) n with
      | error err => rw [h3] at h; exact absurd h (by simp)
      | ok u =>
        obtain ⟨st3, hist, tr3⟩ := u
        rw [h3] at h
        exact ⟨st1, trLog, outs1, tr1, st2, vlLog, outs2, m, tr2, st3, hist, tr3,
          rfl, h2, h3, (Except.ok.inj h).symm⟩

/-- The structure of each per-epoch history entry. -/
def EpochShape (fw : Framework P T G O) (lg : EpochLog) : Prop :=
  lg.train.map Prod.fst = ["kl_loss", "reconstruction_loss", "survival_loss"] ∧
  lg.valid.map Prod.fst =
    ["kl_loss", "reconstruction_loss", "survival_loss", "metric"] ∧
  (∃ kvs, List.lookup "reconstruction_loss" lg.train = some (LogVal.table kvs) ∧
    kvs.map Prod.fst = fw.input_types_vae) ∧
  (∃ kvs, List.lookup "reconstruction_loss" lg.valid = some (LogVal.table kvs) ∧
    kvs.map Prod.fst = fw.input_types_vae) ∧
  LogNonNan lg.train ∧ LogNonNan lg.valid

theorem filterMap_replicate_none {α β : Type} {x : α} {f : α → Option β}
    (hf : f x = none) (k : Nat) : (List.replicate k x).filterMap f = [] := by
  induction k with
  | zero => rfl
  | succ k ih => rw [List.replicate_succ, List.filterMap_cons, hf, ih]

theorem filterMap_replicate_some {α β : Type} {x : α} {y : β} {f : α → Option β}
    (hf : f x = some y) (k : Nat) :
    (List.replicate k x).filterMap f = List.replicate k y := by
  induction k with
  | zero => rfl
  | succ k ih =>
    rw [List.replicate_succ, List.filterMap_cons, hf, ih, List.replicate_succ]

theorem countP_replicate_false {α : Type} {x : α} {p : α → Bool}
    (hp : p x = false) (k : Nat) : (List.replicate k x).countP p = 0 := by
  induction k with
  | zero => rfl
  | succ k ih => simp [List.replicate_succ, List.countP_cons, hp, ih]

theorem phases_append (a b : List (Ev G)) :
    phases (a ++ b) = phases a ++ phases b := List.filterMap_append a b _

theorem writeNames_append (a b : List (Ev G)) :
    writeNames (a ++ b) = writeNames a ++ writeNames b := List.filterMap_append a b _

theorem countCindex_append (a b : List (Ev G)) :
    countCindex (a ++ b) = countCindex a + countCindex b := by
  simp [countCindex, List.countP_append]

theorem countCindex_phaseTrain (e : Nat) (tr : List (Ev G)) :
    countCindex (Ev.phaseTrain e :: tr) = countCindex tr := by
  simp [countCindex, List.countP_cons]

theorem countCindex_phaseValid (e : Nat) (tr : List (Ev G)) :
    countCindex (Ev.phaseValid e :: tr) = countCindex tr := by
  simp [countCindex, List.countP_cons]

/-- `train_step`-level trace facts: the trace opens with `model.train()`
and a single `optimizer.zero_grad()`, no further `zero_grad` occurs, every
`optimizer.step` consumes the running sum (from zero) of the gradient
contributions backpropagated so far in the epoch, every forward pass has
gradients enabled, and the step writes no file, computes no concordance
index and emits no phase marker. -/
theorem trainStep_trace {fw : Framework P T G O} {lr : ℚ} {tl : List (Batch T)}
    {st : TState P G O} {st1 log outs tr}
    (h : trainStep fw lr tl st = .ok (st1, log, outs, tr)) :
    ∃ trb, tr = Ev.modelTrain :: Ev.zeroGrad :: trb ∧
      countZeroGrad tr = 1 ∧ countZeroGrad trb = 0 ∧
      stepGrads trb = runningSums fw fw.gzero (backGrads trb) ∧
      phases tr = [] ∧ countCindex tr = 0 ∧ writeNames tr = [] ∧
      fwdModes tr = List.replicate tl.length true := by
  obtain ⟨st2, outs2, tr2, hb, hr⟩ := trainStep_ok h
  simp only [Prod.mk.injEq] at hr
  obtain ⟨h1, h2, h3, h4⟩ := hr
  subst h4
  obtain ⟨_, _, hsg, hz, hc, hw, hp, hf, _⟩ := trainBatches_spec hb
  have hz' : countZeroGrad tr2 = 0 := hz
  have hc' : countCindex tr2 = 0 := hc
  have hw' : writeNames tr2 = [] := hw
  have hp' : phases tr2 = [] := hp
  have hf' : fwdModes tr2 = List.replicate tl.length true := hf
  refine ⟨tr2, rfl, ?_, hz', hsg, ?_, ?_, ?_, ?_⟩
  · have e1 : countZeroGrad (Ev.modelTrain :: Ev.zeroGrad :: tr2) =
        countZeroGrad tr2 + 1 := by
      simp [countZeroGrad, List.countP_cons]
    rw [e1, hz']
  · have e1 : phases (Ev.modelTrain :: Ev.zeroGrad :: tr2) = phases tr2 := rfl
    rw [e1, hp']
  · have e1 : countCindex (Ev.modelTrain :: Ev.zeroGrad :: tr2) =
        countCindex tr2 := by
      simp [countCindex, List.countP_cons]
    rw [e1, hc']
  · have e1 : writeNames (Ev.modelTrain :: Ev.zeroGrad :: tr2) =
        writeNames tr2 := rfl
    rw [e1, hw']
  · have e1 : fwdModes (Ev.modelTrain :: Ev.zeroGrad :: tr2) = fwdModes tr2 := rfl
    rw [e1, hf']

/-- `valid_step`-level trace and frame facts: the model parameters, the
stored gradient and the optimizer state are returned exactly as they were,
no backward or optimizer-step event occurs, every forward pass runs with
gradients disabled, the concordance index is computed exactly once, and
nothing is written. -/
theorem validStep_trace {fw : Framework P T G O} {vl : List (Batch T)}
    {st : TState P G O} {st1 log outs m tr}
    (h : validStep fw vl st = .ok (st1, log, outs, m, tr)) :
    st1.params = st.params ∧ st1.grad = st.grad ∧ st1.opt = st.opt ∧
    backLosses tr = [] ∧ backGrads tr = [] ∧ stepGrads tr = [] ∧
    countZeroGrad tr = 0 ∧ countCindex tr = 1 ∧ writeNames tr = [] ∧
    phases tr = [] ∧ fwdModes tr = List.replicate vl.length false := by
  obtain ⟨st2, outs2, tr2, hv, _, hr⟩ := validStep_ok h
  simp only [Prod.mk.injEq] at hr
  obtain ⟨h1, h2, h3, h4, h5⟩ := hr
  subst h1; subst h5
  obtain ⟨hst, houts, htr, _⟩ := validBatches_spec hv
  subst hst; subst htr
  refine ⟨rfl, rfl, rfl, ?_, ?_, ?_, ?_, ?_, ?_, ?_, ?_⟩
  · simp [backLosses, List.filterMap_append, List.filterMap_cons,
      filterMap_replicate_none]
  · simp [backGrads, List.filterMap_append, List.filterMap_cons,
      filterMap_replicate_none]
  · simp [stepGrads, List.filterMap_append, List.filterMap_cons,
      filterMap_replicate_none]
  · simp [countZeroGrad, List.countP_append, List.countP_cons,
      countP_replicate_false]
  · simp [countCindex, List.countP_append, List.countP_cons,
      countP_replicate_false]
  · simp [writeNames, List.filterMap_append, List.filterMap_cons,
      filterMap_replicate_none]
  · simp [phases, List.filterMap_append, List.filterMap_cons,
      filterMap_replicate_none]
  · simp [fwdModes, List.filterMap_append, List.filterMap_cons,
      filterMap_replicate_some]

/-- Aggregate facts about a successful epoch loop starting at epoch `e`
with `n` epochs to run: the history keys are `e, e+1, ..., e+n-1` in
order, every entry has the logged key structure with non-NaN loss values,
the phase markers show `train_step` before `valid_step` inside each epoch
and epochs in increasing order, the concordance index is computed exactly
once per epoch, and the loop writes no file. -/
theorem runEpochs_spec {fw : Framework P T G O} {lr : ℚ} {tl vl : List (Batch T)} :
    ∀ {st : TState P G O} {e n : Nat} {st' hist tr},
    runEpochs fw lr tl vl st e n = .ok (st', hist, tr) →
    hist.map Prod.fst = List.range' e n ∧
    (∀ p ∈ hist, EpochShape fw p.2) ∧
    phases tr = ((List.range' e n).map (fun k => [(k, true), (k, false)])).flatten ∧
    countCindex tr = n ∧
    writeNames tr = [] := by
  intro st e n
  induction n generalizing st e with
  | zero =>
    intro st' hist tr h
    have h' := runEpochs_nil h
    simp only [Prod.mk.injEq] at h'
    obtain ⟨_, h2, h3⟩ := h'
    subst h2; subst h3
    exact ⟨rfl, fun p hp => absurd hp (List.not_mem_nil p), rfl, rfl, rfl⟩
  | succ n ih =>
    intro st' hist tr h
    obtain ⟨st1, trLog, outs1, tr1, st2, vlLog, outs2, m, tr2, st3, hist3, tr3,
      h1, h2, h3, hr⟩ := runEpochs_succ h
    simp only [Prod.mk.injEq] at hr
    obtain ⟨h4, h5, h6⟩ := hr
    subst h4; subst h5; subst h6
    obtain ⟨ihk, ihs, ihp, ihc, ihw⟩ := ih h3
    obtain ⟨stb, outsb, trb, hb, hbr⟩ := trainStep_ok h1
    simp only [Prod.mk.injEq] at hbr
    obtain ⟨hb1, hb2, hb3, hb4⟩ := hbr
    obtain ⟨stv, outsv, trv, hv, _, hvr⟩ := validStep_ok h2
    simp only [Prod.mk.injEq] at hvr
    obtain ⟨hv1, hv2, hv3, hv4, hv5⟩ := hvr
    obtain ⟨htk, htt, htn⟩ := trainLog_shape (fun o ho =>
      ⟨(trainBatches_outs hb o ho).1, (trainBatches_outs hb o ho).2.1,
       (trainBatches_outs hb o ho).2.2.1, (trainBatches_outs hb o ho).2.2.2.1⟩)
    obtain ⟨hvk, hvt, hvn⟩ := validLog_shape (m := vmetric fw outsv)
      (validBatches_outs hv)
    obtain ⟨_, _, _, _, _, htp, htc, htw, _⟩ := trainStep_trace h1
    obtain ⟨_, _, _, _, _, _, _, hvc, hvw, hvp, _⟩ := validStep_trace h2
    refine ⟨?_, ?_, ?_, ?_, ?_⟩
    · simp only [List.map_cons]
      rw [List.range'_succ, ihk]
    · intro p hp
      rcases List.mem_cons.mp hp with hp | hp
      · subst hp
        subst hb2; subst hv2
        exact ⟨htk, hvk, htt, hvt, htn, hvn⟩
      · exact ihs p hp
    · rw [phases_append, phases_append]
      have e1 : phases (Ev.phaseTrain e :: tr1) = (e, true) :: phases tr1 := rfl
      have e2 : phases (Ev.phaseValid e :: tr2) = (e, false) :: phases tr2 := rfl
      rw [e1, e2, htp, hvp, ihp, List.range'_succ, List.map_cons, List.flatten_cons]
      rfl
    · rw [countCindex_append, countCindex_append, countCindex_phaseTrain,
        countCindex_phaseValid, htc, hvc, ihc]
      omega
    · rw [writeNames_append, writeNames_append]
      have e1 : writeNames (Ev.phaseTrain e :: tr1) = writeNames tr1 := rfl
      have e2 : writeNames (Ev.phaseValid e :: tr2) = writeNames tr2 := rfl
      rw [e1, e2, htw, hvw, ihw]
      rfl

/-- An association list whose keys are `e, e+1, ..., e+n-1` in order has a
successful lookup for every key in that range. -/
theorem history_lookup : ∀ {hist : List (Nat × EpochLog)} {e n : Nat},
    hist.map Prod.fst = List.range' e n →
    ∀ e', e ≤ e' → e' < e + n →
    ∃ lg, hist.lookup e' = some lg ∧ (e', lg) ∈ hist := by
  intro hist
  induction hist with
  | nil =>
    intro e n h e' h1 h2
    cases n with
    | zero => omega
    | succ k =>
      rw [List.range'_succ] at h
      exact absurd h (by simp)
  | cons p hist ih =>
    obtain ⟨k, v⟩ := p
    intro e n h e' h1 h2
    cases n with
    | zero => exact absurd h (by simp)
    | succ n =>
      rw [List.range'_succ] at h
      simp only [List.map_cons, List.cons.injEq] at h
      obtain ⟨hk, hh⟩ := h
      subst hk
      by_cases he : e' = k
      · subst he
        refine ⟨v, ?_, List.mem_cons_self _ _⟩
        simp [List.lookup]
      · obtain ⟨lg, hlk, hmem⟩ := ih hh e' (by omega) (by omega)
        refine ⟨lg, ?_, List.mem_cons_of_mem _ hmem⟩
        have hbe : (e' == k) = false := beq_eq_false_iff_ne.mpr he
        simpa [List.lookup, hbe] using hlk

theorem fit_ok {fw : Framework P T G O} {st : TState P G O} {tl vl : List (Batch T)}
    {ps : VAEParams} {r} (h : fit fw st tl vl ps = .ok r) :
    ∃ st' hist tr,
      runEpochs fw ps.lr tl vl st 0 ps.epochs = .ok (st', hist, tr) ∧
      r = ⟨st', ⟨ps, hist⟩, none,
        tr ++ [Ev.writeFile (ps.resultsbase ++ ".json")]⟩ := by
  unfold fit at h
  obtain ⟨v, hv, hr⟩ := mapOkInv h
  obtain ⟨st', hist, tr⟩ := v
  exact ⟨st', hist, tr, hv, hr⟩

theorem parse_args_ok_iff (endpoint : String) (shuffle fold : Int) :
    (∃ a, parse_args endpoint shuffle fold = .ok a) ↔
    ((endpoint = "pfs" ∨ endpoint = "os") ∧ 0 ≤ shuffle ∧ shuffle < 10 ∧
      0 ≤ fold ∧ fold < 5) := by
  unfold parse_args
  constructor
  · intro ⟨a, ha⟩
    split at ha
    · split at ha
      · split at ha
        · next h3 h2 h1 => exact ⟨h3, h2.1, h2.2, h1.1, h1.2⟩
        · exact absurd ha (by simp)
      · exact absurd ha (by simp)
    · exact absurd ha (by simp)
  · intro ⟨h1, h2, h3, h4, h5⟩
    rw [if_pos h1, if_pos ⟨h2, h3⟩, if_pos ⟨h4, h5⟩]
    exact ⟨_, rfl⟩

theorem parse_args_okShape {endpoint : String} {shuffle fold : Int} {a : Args}
    (h : parse_args endpoint shuffle fold = .ok a) :
    a = ⟨endpoint, shuffle, fold⟩ := by
  unfold parse_args at h
  split at h
  · split at h
    · split at h
      · exact (Except.ok.inj h).symm
      · exact absurd h (by simp)
    · exact absurd h (by simp)
  · exact absurd h (by simp)

theorem parse_args_invalid {endpoint : String} {shuffle fold : Int}
    (h : ¬((endpoint = "pfs" ∨ endpoint = "os") ∧ 0 ≤ shuffle ∧ shuffle < 10 ∧
      0 ≤ fold ∧ fold < 5)) :
    ∃ msg, parse_args endpoint shuffle fold = .error msg := by
  cases hp : parse_args endpoint shuffle fold with
  | error msg => exact ⟨msg, rfl⟩
  | ok a => exact absurd ((parse_args_ok_iff endpoint shuffle fold).mp ⟨a, hp⟩) h

theorem main_parse_error {ext : MainExt P T G O D} {fw : Framework P T G O}
    {hy : Hyper} {endpoint : String} {shuffle fold : Int} {msg : String}
    (h : parse_args endpoint shuffle fold = .error msg) :
    main ext fw hy endpoint shuffle fold = .error msg := by
  unfold main
  rw [h]

theorem main_ok {ext : MainExt P T G O D} {fw : Framework P T G O} {hy : Hyper}
    {endpoint : String} {shuffle fold : Int} {r}
    (h : main ext fw hy endpoint shuffle fold = .ok r) :
    ∃ args fo,
      parse_args endpoint shuffle fold = .ok args ∧
      fit fw (ext.initModel (mkVAEParams args hy))
        (loadersOf ext (mkVAEParams args hy)).1
        (loadersOf ext (mkVAEParams args hy)).2 (mkVAEParams args hy) = .ok fo ∧
      r = ⟨mkVAEParams args hy, splitOf ext (mkVAEParams args hy),
        (loadersOf ext (mkVAEParams args hy)).1,
        (loadersOf ext (mkVAEParams args hy)).2, fo,
        fo.trace
          ++ predict_to_csv fo.state (loadersOf ext (mkVAEParams args hy)).2
               ((mkVAEParams args hy).resultsbase ++ ".csv")
          ++ plot_results_to_pdf ((mkVAEParams args hy).resultsbase ++ ".json")
               ((mkVAEParams args hy).resultsbase ++ ".pdf")⟩ := by
  unfold main at h
  cases h1 : parse_args endpoint shuffle fold with
  | error e => rw [h1] at h; exact absurd h (by simp)
  | ok args =>
    rw [h1] at h
    dsimp only at h
    cases h2 : fit fw (ext.initModel (mkVAEParams args hy))
        (loadersOf ext (mkVAEParams args hy)).1
        (loadersOf ext (mkVAEParams args hy)).2 (mkVAEParams args hy) with
    | error e => rw [h2] at h; exact absurd h (by simp)
    | ok fo =>
      rw [h2] at h
      exact ⟨args, fo, rfl, h2, (Except.ok.inj h).symm⟩

/-! Concrete runs used by witnesses and counterexamples. -/

/-- A concrete initial training-mode state. -/
def stT : TState ℤ ℤ Unit := ⟨0, 0, (), true⟩

/-- A concrete one-batch pass over the training loop. -/
def tbExVal : TState ℤ ℤ Unit × List (TrainOut ℤ) × List (Ev ℤ) :=
  (trainBatches fwEx 1 stT [bEx]).toOption.getD (stT, [], [])

/-- A concrete two-batch `train_step` run. -/
def tsEx2Val : TState ℤ ℤ Unit × AssocLog × List (TrainOut ℤ) × List (Ev ℤ) :=
  (trainStep fwEx 1 [bEx, bEx] stEx).toOption.getD (stEx, [], [], [])

/-- A concrete one-batch `train_step` run. -/
def tsExVal : TState ℤ ℤ Unit × AssocLog × List (TrainOut ℤ) × List (Ev ℤ) :=
  (trainStep fwEx 1 [bEx] stEx).toOption.getD (stEx, [], [], [])

/-- A concrete one-batch `valid_step` run. -/
def vsExVal : TState ℤ ℤ Unit × AssocLog × List (ValidOut Unit) × FVal × List (Ev ℤ) :=
  (validStep fwEx [bEx] stEx).toOption.getD (stEx, [], [], FVal.nan, [])

/-- A concrete one-epoch `fit` run. -/
def fitExVal : FitOutcome ℤ ℤ Unit :=
  (fit fwEx stEx [bEx] [bEx] psEx).toOption.getD ⟨stEx, ⟨psEx, []⟩, none, []⟩

/-- A concrete successful `main` run. -/
def moExVal : MainOut ℤ Unit ℤ Unit Unit :=
  (main extEx fwEx hyEx "pfs" 0 0).toOption.getD
    ⟨psEx, ((), ()), [], [], ⟨stEx, ⟨psEx, []⟩, none, []⟩, []⟩

/-! The claims. -/

/-- Claim C1: for every training batch processed by `fit`'s `train_step`,
the loss that is backpropagated is exactly the sum of the three loss terms
for that batch — the KL-divergence loss, plus the survival (Cox partial
likelihood) loss, plus the sum of the per-modality reconstruction losses —
with no other terms and no weighting factors.  The backward-event losses
of the trace are the per-batch `lossBp` values, each `lossBp` is
`kl + surv + sum recons` of its own batch, and the per-batch outputs are
the per-batch loss computations along the parameter trajectory. -/
theorem C1_backprop_loss {fw : Framework P T G O} {lr : ℚ}
    {st : TState P G O} {bs : List (Batch T)} {st' outs tr}
    (h : trainBatches fw lr st bs = .ok (st', outs, tr)) :
    backLosses tr = outs.map (fun o => o.lossBp) ∧
    (∀ o ∈ outs, o.lossBp =
      (o.losses.kl.add o.losses.surv).add (fsum o.losses.recons)) ∧
    outs = List.zipWith (fun s b => mkTrainOut fw s b)
      (trainStates fw lr st bs) bs := by
  obtain ⟨ho, hbl, _⟩ := trainBatches_spec h
  exact ⟨hbl, fun o hmem => (trainBatches_outs h o hmem).2.2.2.2, ho⟩

/-- Witness for C1 at a concrete one-batch run. -/
theorem C1_backprop_loss_witness :
    (trainBatches fwEx 1 stT [bEx] = .ok tbExVal) ∧
    (backLosses tbExVal.2.2 = tbExVal.2.1.map (fun o => o.lossBp) ∧
      (∀ o ∈ tbExVal.2.1, o.lossBp =
        (o.losses.kl.add o.losses.surv).add (fsum o.losses.recons)) ∧
      tbExVal.2.1 = List.zipWith (fun s b => mkTrainOut fwEx s b)
        (trainStates fwEx 1 stT [bEx]) [bEx]) :=
  ⟨rfl, C1_backprop_loss rfl⟩

/-- Claim C2 counterexample: with two batches and gradient contribution 1
per batch, `train_step` emits a single `zero_grad` (not one per batch) and
its optimizer steps consume the gradients `[1, 2]` while the per-batch
backpropagated gradients are `[1, 1]`: the second step does not use the
gradient of its single batch only. -/
theorem C2_counterexample :
    trainStep fwEx 1 [bEx, bEx] stEx = .ok tsEx2Val ∧
    stepGrads tsEx2Val.2.2.2 ≠ backGrads tsEx2Val.2.2.2 ∧
    stepGrads tsEx2Val.2.2.2 = [1, 2] ∧
    backGrads tsEx2Val.2.2.2 = [1, 1] ∧
    countZeroGrad tsEx2Val.2.2.2 = 1 := by
  refine ⟨rfl, ?_, ?_, ?_, ?_⟩ <;> decide

/-- Claim C2 (amended): the training loop resets the accumulated gradients
exactly once per epoch — `optimizer.zero_grad()` runs at the start of
`train_step`, before the batch loop — so within an epoch gradients
accumulate across batches: the gradient used by the k-th `optimizer.step`
of an epoch is the running sum of the gradient contributions of batches
1..k of that epoch (and no accumulation crosses epochs, because of the
per-epoch reset). -/
theorem C2_grad_accumulation {fw : Framework P T G O} {lr : ℚ}
    {tl : List (Batch T)} {st : TState P G O} {st1 log outs tr}
    (h : trainStep fw lr tl st = .ok (st1, log, outs, tr)) :
    ∃ trb, tr = Ev.modelTrain :: Ev.zeroGrad :: trb ∧
      countZeroGrad tr = 1 ∧
      stepGrads trb = runningSums fw fw.gzero (backGrads trb) := by
  obtain ⟨trb, h1, h2, _, h4, _, _, _, _⟩ := trainStep_trace h
  exact ⟨trb, h1, h2, h4⟩

/-- Witness for the amended C2 at a concrete two-batch run. -/
theorem C2_grad_accumulation_witness :
    (trainStep fwEx 1 [bEx, bEx] stEx = .ok tsEx2Val) ∧
    (∃ trb, tsEx2Val.2.2.2 = Ev.modelTrain :: Ev.zeroGrad :: trb ∧
      countZeroGrad tsEx2Val.2.2.2 = 1 ∧
      stepGrads trb = runningSums fwEx fwEx.gzero (backGrads trb)) :=
  ⟨rfl, C2_grad_accumulation (show trainStep fwEx 1 [bEx, bEx] stEx =
    .ok (tsEx2Val.1, tsEx2Val.2.1, tsEx2Val.2.2.1, tsEx2Val.2.2.2) from rfl)⟩

/-- Claim C3: after `fit` completes, for every epoch `e < params.epochs`
the history entry for `e` exists; its `train` log has exactly the keys
`kl_loss`, `reconstruction_loss` (a table with one entry per VAE input
type) and `survival_loss`; its `valid` log has those keys plus `metric`;
and the phase trace shows the epochs processed in increasing order with
the training step run before the validation step within each epoch. -/
theorem C3_history {fw : Framework P T G O} {st : TState P G O}
    {tl vl : List (Batch T)} {ps : VAEParams} {out}
    (h : fit fw st tl vl ps = .ok out) :
    (∀ e, e < ps.epochs →
      ∃ lg, out.results.history.lookup e = some lg ∧ EpochShape fw lg) ∧
    phases out.trace =
      ((List.range ps.epochs).map (fun k => [(k, true), (k, false)])).flatten := by
  obtain ⟨st', hist, tr, hre, hout⟩ := fit_ok h
  subst hout
  obtain ⟨hk, hs, hp, _, _⟩ := runEpochs_spec hre
  constructor
  · intro e he
    obtain ⟨lg, hl, hm⟩ := history_lookup hk e (Nat.zero_le e) (by omega)
    exact ⟨lg, hl, hs (e, lg) hm⟩
  · have e1 : phases (G := G) [Ev.writeFile (ps.resultsbase ++ ".json")] = [] := rfl
    show phases (tr ++ [Ev.writeFile (ps.resultsbase ++ ".json")]) = _
    rw [phases_append, e1, List.append_nil, hp, List.range_eq_range']

/-- Witness for C3 at a concrete one-epoch run. -/
theorem C3_history_witness :
    (fit fwEx stEx [bEx] [bEx] psEx = .ok fitExVal) ∧
    (∃ lg, fitExVal.results.history.lookup 0 = some lg ∧ EpochShape fwEx lg) ∧
    phases fitExVal.trace =
      ((List.range psEx.epochs).map (fun k => [(k, true), (k, false)])).flatten :=
  ⟨rfl,
   (C3_history (show fit fwEx stEx [bEx] [bEx] psEx = .ok fitExVal from rfl)).1
     0 (by decide),
   (C3_history (show fit fwEx stEx [bEx] [bEx] psEx = .ok fitExVal from rfl)).2⟩

/-- Claim C4: the per-epoch concordance-index metric is computed exactly
once per epoch (`valid_step` performs one `ConcordanceIndex` call, and a
whole `fit` run performs `params.epochs` of them), on the concatenation,
in validation-loader order, of the event indicators, event times, and
flattened risk predictions of all validation batches — not as an average
of per-batch metrics. -/
theorem C4_concordance {fw : Framework P T G O} :
    (∀ {vl : List (Batch T)} {st : TState P G O} {st1 log outs m tr},
      validStep fw vl st = .ok (st1, log, outs, m, tr) →
      m = fw.ConcordanceIndex
        (fw.cat (vl.map (fun b => b.event_indicator)))
        (fw.cat (vl.map (fun b => b.event_time)))
        (fw.cat (vl.map (fun b => riskFlat fw false st.params b))) ∧
      countCindex tr = 1) ∧
    (∀ {st : TState P G O} {tl vl : List (Batch T)} {ps : VAEParams} {out},
      fit fw st tl vl ps = .ok out → countCindex out.trace = ps.epochs) := by
  constructor
  · intro vl st st1 log outs m tr h
    constructor
    · obtain ⟨st2, outs2, tr2, hv, _, hr⟩ := validStep_ok h
      simp only [Prod.mk.injEq] at hr
      obtain ⟨_, _, _, h4, _⟩ := hr
      obtain ⟨_, houts, _, _⟩ := validBatches_spec hv
      subst h4
      subst houts
      simp [vmetric, List.map_map, mkValidOut, Function.comp_def]
    · obtain ⟨_, _, _, _, _, _, _, hc, _, _, _⟩ := validStep_trace h
      exact hc
  · intro st tl vl ps out h
    obtain ⟨st', hist, tr, hre, hout⟩ := fit_ok h
    subst hout
    obtain ⟨_, _, _, hc, _⟩ := runEpochs_spec hre
    have e1 : countCindex (G := G) [Ev.writeFile (ps.resultsbase ++ ".json")] = 0 :=
      rfl
    show countCindex (tr ++ [Ev.writeFile (ps.resultsbase ++ ".json")]) = _
    rw [countCindex_append, e1, hc]
    omega

/-- Witness for C4 at a concrete one-batch validation and one-epoch fit. -/
theorem C4_concordance_witness :
    (validStep fwEx [bEx] stEx = .ok vsExVal) ∧
    (vsExVal.2.2.2.1 = fwEx.ConcordanceIndex
        (fwEx.cat ([bEx].map (fun b => b.event_indicator)))
        (fwEx.cat ([bEx].map (fun b => b.event_time)))
        (fwEx.cat ([bEx].map (fun b => riskFlat fwEx false stEx.params b))) ∧
      countCindex vsExVal.2.2.2.2 = 1) ∧
    (fit fwEx stEx [bEx] [bEx] psEx = .ok fitExVal) ∧
    countCindex fitExVal.trace = psEx.epochs :=
  ⟨rfl,
   C4_concordance.1 (show validStep fwEx [bEx] stEx = .ok
     (vsExVal.1, vsExVal.2.1, vsExVal.2.2.1, vsExVal.2.2.2.1, vsExVal.2.2.2.2)
     from rfl),
   rfl,
   C4_concordance.2 (show fit fwEx stEx [bEx] [bEx] psEx = .ok fitExVal from rfl)⟩

/-- Claim C5 (amended): every per-epoch logged loss value — train and
valid, for the KL loss, the survival loss, and each per-modality
reconstruction loss — equals the sum over that epoch's batches of the
corresponding per-batch loss value; for an empty training loader each
logged training loss is `0`, while an empty validation loader makes
`valid_step` raise at `torch.cat` (`fit.py` line 106) before logging
anything. -/
theorem C5_loss_sums {fw : Framework P T G O} :
    (∀ {lr : ℚ} {tl : List (Batch T)} {st : TState P G O} {st1 log outs tr},
      trainStep fw lr tl st = .ok (st1, log, outs, tr) →
      log.lookup "kl_loss" =
        some (LogVal.scalar (fsum (outs.map (fun o => o.losses.kl)))) ∧
      log.lookup "survival_loss" =
        some (LogVal.scalar (fsum (outs.map (fun o => o.losses.surv)))) ∧
      ∃ v, log.lookup "reconstruction_loss" =
          some (LogVal.table (fw.input_types_vae.zip v)) ∧
        ∀ i, i < fw.input_types_vae.length →
          v.getD i FVal.nan =
            fsum (outs.map (fun o => o.losses.recons.getD i FVal.nan))) ∧
    (∀ {vl : List (Batch T)} {st : TState P G O} {st1 log outs m tr},
      validStep fw vl st = .ok (st1, log, outs, m, tr) →
      log.lookup "kl_loss" =
        some (LogVal.scalar (fsum (outs.map (fun o => o.losses.kl)))) ∧
      log.lookup "survival_loss" =
        some (LogVal.scalar (fsum (outs.map (fun o => o.losses.surv)))) ∧
      ∃ v, log.lookup "reconstruction_loss" =
          some (LogVal.table (fw.input_types_vae.zip v)) ∧
        ∀ i, i < fw.input_types_vae.length →
          v.getD i FVal.nan =
            fsum (outs.map (fun o => o.losses.recons.getD i FVal.nan))) ∧
    (∀ (lr : ℚ) (st : TState P G O),
      trainStep fw lr [] st = .ok (⟨st.params, fw.gzero, st.opt, true⟩,
        [("kl_loss", LogVal.scalar (FVal.num 0)),
         ("reconstruction_loss", LogVal.table (fw.input_types_vae.zip
           (List.replicate fw.input_types_vae.length (FVal.num 0)))),
         ("survival_loss", LogVal.scalar (FVal.num 0))],
        [], [Ev.modelTrain, Ev.zeroGrad])) ∧
    (∀ st : TState P G O, validStep fw [] st = .error ()) := by
  refine ⟨?_, ?_, ?_, ?_⟩
  · intro lr tl st st1 log outs tr h
    obtain ⟨st2, outs, tr2, hb, hr⟩ := trainStep_ok h
    simp only [Prod.mk.injEq] at hr
    obtain ⟨_, hlog, houts, _⟩ := hr
    subst hlog
    subst houts
    refine ⟨?_, ?_, ?_⟩
    · have e1 : List.lookup "kl_loss" (trainLog fw outs) =
          some (LogVal.scalar (accKL (outs.map (fun o => o.losses)))) := rfl
      rw [e1, accKL_eq_fsum]
      simp [List.map_map, Function.comp_def]
    · have e1 : List.lookup "survival_loss" (trainLog fw outs) =
          some (LogVal.scalar (accSurv (outs.map (fun o => o.losses)))) := rfl
      rw [e1, accSurv_eq_fsum]
      simp [List.map_map, Function.comp_def]
    · refine ⟨vecSum fw.input_types_vae.length
        (outs.map (fun (o : TrainOut G) => o.losses.recons)), rfl, ?_⟩
      intro i hi
      have hlen : ∀ l ∈ outs.map (fun (o : TrainOut G) => o.losses.recons),
          l.length = fw.input_types_vae.length := by
        intro l hl
        obtain ⟨o, ho, rfl⟩ := List.mem_map.mp hl
        exact (trainBatches_outs hb o ho).2.2.2.1
      rw [vecSum_getD hlen hi]
      simp [List.map_map, Function.comp_def]
  · intro vl st st1 log outs m tr h
    obtain ⟨st2, outs, tr2, hv, _, hr⟩ := validStep_ok h
    simp only [Prod.mk.injEq] at hr
    obtain ⟨_, hlog, houts, _, _⟩ := hr
    subst hlog
    subst houts
    refine ⟨?_, ?_, ?_⟩
    · have e1 : List.lookup "kl_loss" (validLog fw outs (vmetric fw outs)) =
          some (LogVal.scalar (accKL (outs.map (fun o => o.losses)))) := rfl
      rw [e1, accKL_eq_fsum]
      simp [List.map_map, Function.comp_def]
    · have e1 : List.lookup "survival_loss"
          (validLog fw outs (vmetric fw outs)) =
          some (LogVal.scalar (accSurv (outs.map (fun o => o.losses)))) := rfl
      rw [e1, accSurv_eq_fsum]
      simp [List.map_map, Function.comp_def]
    · refine ⟨vecSum fw.input_types_vae.length
        (outs.map (fun (o : ValidOut T) => o.losses.recons)), rfl, ?_⟩
      intro i hi
      have hlen : ∀ l ∈ outs.map (fun (o : ValidOut T) => o.losses.recons),
          l.length = fw.input_types_vae.length := by
        intro l hl
        obtain ⟨o, ho, rfl⟩ := List.mem_map.mp hl
        exact (validBatches_outs hv o ho).2.2.2
      rw [vecSum_getD hlen hi]
      simp [List.map_map, Function.comp_def]
  · intro lr st
    rfl
  · intro st
    rfl

/-- Claim C5 counterexample: with an empty validation loader nothing is
logged as `0` — `torch.cat` of the empty accumulated tensor list raises
(`fit.py` line 106) before the logging at lines 112-117, so `valid_step`
and the whole `fit` run abort instead of recording zero losses. -/
theorem C5_counterexample :
    validStep fwEx ([] : List (Batch Unit)) stEx = .error () ∧
    fit fwEx stEx [bEx] [] psEx = .error () :=
  ⟨rfl, rfl⟩

/-- Witness for C5 at concrete one-batch runs. -/
theorem C5_loss_sums_witness :
    (trainStep fwEx 1 [bEx] stEx = .ok tsExVal) ∧
    (tsExVal.2.1.lookup "kl_loss" =
        some (LogVal.scalar (fsum (tsExVal.2.2.1.map (fun o => o.losses.kl)))) ∧
      tsExVal.2.1.lookup "survival_loss" =
        some (LogVal.scalar (fsum (tsExVal.2.2.1.map (fun o => o.losses.surv)))) ∧
      ∃ v, tsExVal.2.1.lookup "reconstruction_loss" =
          some (LogVal.table (fwEx.input_types_vae.zip v)) ∧
        ∀ i, i < fwEx.input_types_vae.length →
          v.getD i FVal.nan =
            fsum (tsExVal.2.2.1.map (fun o => o.losses.recons.getD i FVal.nan))) ∧
    (validStep fwEx [bEx] stEx = .ok vsExVal) ∧
    (vsExVal.2.1.lookup "kl_loss" =
        some (LogVal.scalar (fsum (vsExVal.2.2.1.map (fun o => o.losses.kl)))) ∧
      vsExVal.2.1.lookup "survival_loss" =
        some (LogVal.scalar (fsum (vsExVal.2.2.1.map (fun o => o.losses.surv)))) ∧
      ∃ v, vsExVal.2.1.lookup "reconstruction_loss" =
          some (LogVal.table (fwEx.input_types_vae.zip v)) ∧
        ∀ i, i < fwEx.input_types_vae.length →
          v.getD i FVal.nan =
            fsum (vsExVal.2.2.1.map (fun o => o.losses.recons.getD i FVal.nan))) :=
  ⟨rfl,
   C5_loss_sums.1 (show trainStep fwEx 1 [bEx] stEx = .ok
     (tsExVal.1, tsExVal.2.1, tsExVal.2.2.1, tsExVal.2.2.2) from rfl),
   rfl,
   C5_loss_sums.2.1 (show validStep fwEx [bEx] stEx = .ok
     (vsExVal.1, vsExVal.2.1, vsExVal.2.2.1, vsExVal.2.2.2.1, vsExVal.2.2.2.2)
     from rfl)⟩

/-- Claim C6: a complete run produces exactly three output files sharing
the prefix `params.resultsprefix` (modelled as `resultsbase`), in this
order: `fit` serializes the results dictionary to `<prefix>.json`, then
predictions on the validation loader are written to `<prefix>.csv`, then
losses and metrics are plotted to `<prefix>.pdf`. -/
theorem C6_output_files {D : Type} {ext : MainExt P T G O D}
    {fw : Framework P T G O} {hy : Hyper} {endpoint : String}
    {shuffle fold : Int} {mo}
    (h : main ext fw hy endpoint shuffle fold = .ok mo) :
    writeNames mo.trace =
      [mo.params.resultsbase ++ ".json", mo.params.resultsbase ++ ".csv",
       mo.params.resultsbase ++ ".pdf"] := by
  obtain ⟨args, fo, hp, hf, hr⟩ := main_ok h
  subst hr
  obtain ⟨st', hist, tr, hre, hfo⟩ := fit_ok hf
  subst hfo
  obtain ⟨_, _, _, _, hw⟩ := runEpochs_spec hre
  dsimp only [predict_to_csv, plot_results_to_pdf]
  rw [writeNames_append, writeNames_append, writeNames_append, hw]
  rfl

/-- Witness for C6 at a concrete successful run. -/
theorem C6_output_files_witness :
    (main extEx fwEx hyEx "pfs" 0 0 = .ok moExVal) ∧
    writeNames moExVal.trace =
      [moExVal.params.resultsbase ++ ".json",
       moExVal.params.resultsbase ++ ".csv",
       moExVal.params.resultsbase ++ ".pdf"] :=
  ⟨rfl, C6_output_files
    (show main extEx fwEx hyEx "pfs" 0 0 = .ok moExVal from rfl)⟩

/-- Claim C7: the train/validation split is the k-fold split of the full
parsed dataframe determined by the `--shuffle` and `--fold` command-line
arguments; `--fold` is accepted only in `{0,...,4}`, `--shuffle` only in
`{0,...,9}` and `--endpoint` only in `{pfs, os}`; any argument value
outside these sets is rejected at argument parsing, `main` aborting with
the parse error before any data is loaded or any training occurs. -/
theorem C7_arg_validation {D : Type} :
    (∀ (endpoint : String) (shuffle fold : Int),
      (∃ a, parse_args endpoint shuffle fold = .ok a) ↔
      ((endpoint = "pfs" ∨ endpoint = "os") ∧ 0 ≤ shuffle ∧ shuffle < 10 ∧
        0 ≤ fold ∧ fold < 5)) ∧
    (∀ (ext : MainExt P T G O D) (fw : Framework P T G O) (hy : Hyper)
      (endpoint : String) (shuffle fold : Int),
      ¬((endpoint = "pfs" ∨ endpoint = "os") ∧ 0 ≤ shuffle ∧ shuffle < 10 ∧
        0 ≤ fold ∧ fold < 5) →
      ∃ msg, main ext fw hy endpoint shuffle fold = .error msg) ∧
    (∀ (ext : MainExt P T G O D) (fw : Framework P T G O) (hy : Hyper)
      (endpoint : String) (shuffle fold : Int) (mo : MainOut P T G O D),
      main ext fw hy endpoint shuffle fold = .ok mo →
      mo.params.endpoint = endpoint ∧ mo.params.shuffle = shuffle ∧
      mo.params.fold = fold ∧
      mo.split = ext.kfold_split (ext.parse_all endpoint) shuffle fold ∧
      mo.trainloader = ext.trainloaderOf (ext.scale_impute mo.split).1
        mo.params.input_types_all mo.params.batch_size ∧
      mo.validloader = ext.validloaderOf (ext.scale_impute mo.split).2
        mo.params.input_types_all) := by
  refine ⟨parse_args_ok_iff, ?_, ?_⟩
  · intro ext fw hy endpoint shuffle fold hbad
    obtain ⟨msg, hmsg⟩ := parse_args_invalid hbad
    exact ⟨msg, main_parse_error hmsg⟩
  · intro ext fw hy endpoint shuffle fold mo h
    obtain ⟨args, fo, hp, hf, hr⟩ := main_ok h
    have hargs := parse_args_okShape hp
    subst hargs
    subst hr
    exact ⟨rfl, rfl, rfl, rfl, rfl, rfl⟩

/-- Witness for C7: valid arguments are accepted, an out-of-range fold is
rejected, and a concrete successful run uses the split determined by the
arguments. -/
theorem C7_arg_validation_witness :
    (∃ a, parse_args "pfs" 0 0 = .ok a) ∧
    (∃ msg, main extEx fwEx hyEx "pfs" 0 7 = .error msg) ∧
    (main extEx fwEx hyEx "pfs" 0 0 = .ok moExVal) ∧
    (moExVal.params.endpoint = "pfs" ∧ moExVal.params.shuffle = 0 ∧
      moExVal.params.fold = 0 ∧
      moExVal.split = extEx.kfold_split (extEx.parse_all "pfs") 0 0 ∧
      moExVal.trainloader = extEx.trainloaderOf
        (extEx.scale_impute moExVal.split).1
        moExVal.params.input_types_all moExVal.params.batch_size ∧
      moExVal.validloader = extEx.validloaderOf
        (extEx.scale_impute moExVal.split).2
        moExVal.params.input_types_all) :=
  ⟨((C7_arg_validation (P := ℤ) (T := Unit) (G := ℤ) (O := Unit)
      (D := Unit)).1 "pfs" 0 0).mpr (by decide),
   (C7_arg_validation (P := ℤ) (T := Unit) (G := ℤ) (O := Unit)
      (D := Unit)).2.1 extEx fwEx hyEx "pfs" 0 7 (by decide),
   rfl,
   (C7_arg_validation (P := ℤ) (T := Unit) (G := ℤ) (O := Unit)
      (D := Unit)).2.2 extEx fwEx hyEx "pfs" 0 0 moExVal
     (show main extEx fwEx hyEx "pfs" 0 0 = .ok moExVal from rfl)⟩

/-- Claim C8: `valid_step` never modifies the model parameters or the
optimizer state — the state's parameters, stored gradient and optimizer
internals after a validation step equal their values before it, no
`backward` and no `optimizer.step` event occurs, and every forward pass
runs with gradients disabled (`torch.no_grad`). -/
theorem C8_valid_frame {fw : Framework P T G O} {vl : List (Batch T)}
    {st : TState P G O} {st1 log outs m tr}
    (h : validStep fw vl st = .ok (st1, log, outs, m, tr)) :
    st1.params = st.params ∧ st1.grad = st.grad ∧ st1.opt = st.opt ∧
    backLosses tr = [] ∧ backGrads tr = [] ∧ stepGrads tr = [] ∧
    fwdModes tr = List.replicate vl.length false := by
  obtain ⟨h1, h2, h3, h4, h5, h6, _, _, _, _, h11⟩ := validStep_trace h
  exact ⟨h1, h2, h3, h4, h5, h6, h11⟩

/-- Witness for C8 at a concrete one-batch validation step. -/
theorem C8_valid_frame_witness :
    (validStep fwEx [bEx] stEx = .ok vsExVal) ∧
    (vsExVal.1.params = stEx.params ∧ vsExVal.1.grad = stEx.grad ∧
      vsExVal.1.opt = stEx.opt ∧
      backLosses vsExVal.2.2.2.2 = [] ∧ backGrads vsExVal.2.2.2.2 = [] ∧
      stepGrads vsExVal.2.2.2.2 = [] ∧
      fwdModes vsExVal.2.2.2.2 = List.replicate [bEx].length false) :=
  ⟨rfl, C8_valid_frame (show validStep fwEx [bEx] stEx = .ok
    (vsExVal.1, vsExVal.2.1, vsExVal.2.2.1, vsExVal.2.2.2.1, vsExVal.2.2.2.2)
    from rfl)⟩

theorem assertsOk_false_of_bad {fw : Framework P T G O} {mode : Bool} {p : P}
    {b : Batch T}
    (h : ¬((forwardAt fw mode p b).1.length = (inputsVae fw b).length) ∨
      (batchKL fw mode p b).isNan = true ∨
      (batchRecons fw mode p b).any FVal.isNan = true ∨
      (batchSurv fw mode p b).isNan = true) :
    assertsOk fw mode p b = false := by
  unfold assertsOk
  rcases h with h | h | h | h
  · simp [beq_iff_eq, h]
  · simp [h]
  · simp [h]
  · simp [h]

/-- Claim C9: for every batch in both training and validation, if the KL
loss, the survival loss, or any reconstruction loss evaluates to NaN, or
the number of decoder outputs differs from the number of VAE inputs, the
corresponding loop iteration raises an `AssertionError` (the `Except`
error), aborting `fit` before that epoch is logged; consequently every
loss value recorded in the results history of a completed `fit` run is
non-NaN. -/
theorem C9_nan_guard :
    (∀ (fw : Framework P T G O) (lr : ℚ) (st : TState P G O) (b : Batch T),
      (¬((forwardAt fw st.mode st.params b).1.length =
          (inputsVae fw b).length) ∨
        (batchKL fw st.mode st.params b).isNan = true ∨
        (batchRecons fw st.mode st.params b).any FVal.isNan = true ∨
        (batchSurv fw st.mode st.params b).isNan = true) →
      trainOne fw lr st b = .error ()) ∧
    (∀ (fw : Framework P T G O) (st : TState P G O) (b : Batch T),
      (¬((forwardAt fw st.mode st.params b).1.length =
          (inputsVae fw b).length) ∨
        (batchKL fw st.mode st.params b).isNan = true ∨
        (batchRecons fw st.mode st.params b).any FVal.isNan = true ∨
        (batchSurv fw st.mode st.params b).isNan = true) →
      validOne fw st b = .error ()) ∧
    (∀ (fw : Framework P T G O) {st : TState P G O} {tl vl : List (Batch T)}
      {ps : VAEParams} {out},
      fit fw st tl vl ps = .ok out →
      ∀ p ∈ out.results.history, LogNonNan p.2.train ∧ LogNonNan p.2.valid) := by
  refine ⟨?_, ?_, ?_⟩
  · intro fw lr st b h
    exact trainOne_error (assertsOk_false_of_bad h)
  · intro fw st b h
    exact validOne_error (assertsOk_false_of_bad h)
  · intro fw st tl vl ps out h p hp
    obtain ⟨st', hist, tr, hre, hout⟩ := fit_ok h
    subst hout
    obtain ⟨_, hs, _, _, _⟩ := runEpochs_spec hre
    obtain ⟨_, _, _, _, hn1, hn2⟩ := hs p hp
    exact ⟨hn1, hn2⟩

/-- Witness for C9: a NaN KL loss aborts both loop bodies, and a concrete
completed run has only non-NaN logged losses. -/
theorem C9_nan_guard_witness :
    (trainOne fwNan 1 stEx bEx = .error ()) ∧
    (validOne fwNan stEx bEx = .error ()) ∧
    (fit fwEx stEx [bEx] [bEx] psEx = .ok fitExVal) ∧
    (∀ p ∈ fitExVal.results.history, LogNonNan p.2.train ∧ LogNonNan p.2.valid) :=
  ⟨C9_nan_guard.1 fwNan 1 stEx bEx (Or.inr (Or.inl rfl)),
   C9_nan_guard.2.1 fwNan stEx bEx (Or.inr (Or.inl rfl)),
   rfl,
   C9_nan_guard.2.2 fwEx
     (show fit fwEx stEx [bEx] [bEx] psEx = .ok fitExVal from rfl)⟩

/-- Claim C10: `fit` always returns `None` — despite its docstring's claim
that it returns the history dictionary — so the history reaches callers
only through the side effect of writing `<params.resultsprefix>.json`,
which is the last (and only) file write of `fit`. -/
theorem C10_fit_returns_none {fw : Framework P T G O} {st : TState P G O}
    {tl vl : List (Batch T)} {ps : VAEParams} {out}
    (h : fit fw st tl vl ps = .ok out) :
    out.ret = none ∧
    writeNames out.trace = [ps.resultsbase ++ ".json"] ∧
    out.trace.getLast? = some (Ev.writeFile (ps.resultsbase ++ ".json")) := by
  obtain ⟨st', hist, tr, hre, hout⟩ := fit_ok h
  subst hout
  obtain ⟨_, _, _, _, hw⟩ := runEpochs_spec hre
  refine ⟨rfl, ?_, ?_⟩
  · show writeNames (tr ++ [Ev.writeFile (ps.resultsbase ++ ".json")]) = _
    rw [writeNames_append, hw]
    rfl
  · show (tr ++ [Ev.writeFile (ps.resultsbase ++ ".json")]).getLast? = _
    rw [List.getLast?_concat]

/-- Witness for C10 at a concrete completed run. -/
theorem C10_fit_returns_none_witness :
    (fit fwEx stEx [bEx] [bEx] psEx = .ok fitExVal) ∧
    (fitExVal.ret = none ∧
      writeNames fitExVal.trace = [psEx.resultsbase ++ ".json"] ∧
      fitExVal.trace.getLast? =
        some (Ev.writeFile (psEx.resultsbase ++ ".json"))) :=
  ⟨rfl, C10_fit_returns_none
    (show fit fwEx stEx [bEx] [bEx] psEx = .ok fitExVal from rfl)⟩

end CancerVAE
